import Mathlib

/-!
Shallow embedding of the leave-management approval-workflow engine
(controllers/leaveRequestController, services/approvalWorkflowService).
The database state is modelled as lists of rows; each controller action is a
pure function from a state (plus request parameters and the current date) to
a response together with the successor state.  Floating-point day counts and
balances (JS floats, always multiples of the half-day constant 0.5) are
modelled as integers in half-day units — the engine only ever adds,
subtracts, compares and clamps these quantities, so the embedding is exact.
JS `Date` values (always used at day granularity by the engine) are
modelled as a (year, day-index) pair with lexicographic order.  External collaborators that are not part of the given
sources (date utilities, the authorization predicate, the mail notifier) are
collected in an `Env` record of opaque functions; the notifier has no effect
on the state and is omitted.
-/

namespace LMS

/-- A calendar day: year plus an index inside the year.  The engine compares
dates only at day granularity (all `setHours(0,0,0,0)` / SQL date bounds). -/
structure Day where
  year : Int
  idx : Int
deriving DecidableEq, Repr

/-- Date comparison `a <= b` (lexicographic on (year, idx)). -/
def Day.le (a b : Day) : Bool :=
  if a.year = b.year then decide (a.idx ≤ b.idx) else decide (a.year < b.year)

/-- Strict date comparison `a < b`. -/
def Day.lt (a b : Day) : Bool := !(Day.le b a)

/-- LeaveRequestStatus enum. -/
inductive Status where
  | pending
  | partiallyApproved
  | approved
  | rejected
  | cancelled
  | pendingDeletion
deriving DecidableEq, Repr

/-- LeaveRequestType enum (`full_day | first_half | second_half`). -/
inductive ReqType where
  | fullDay
  | firstHalf
  | secondHalf
deriving DecidableEq, Repr

/-- One approval level of a workflow (`approvalLevels` entry).  `roleIds` is
the new format; `roles` is the legacy role-name format the controller still
branches on when `roleIds` is empty. -/
structure Level where
  level : Int
  roleIds : List String
  roles : List String
  departmentSpecific : Bool
  required : Bool
deriving DecidableEq, Repr

/-- ApprovalWorkflow row. -/
structure Workflow where
  id : String
  name : String
  minDays : ℤ
  maxDays : ℤ
  approvalLevels : List Level
  isActive : Bool
deriving DecidableEq, Repr

/-- One `approvalHistory` entry of the request metadata. -/
structure HistoryEntry where
  level : Int
  approverId : String
  approverName : String
  approvedAt : Day
  comments : Option String
deriving DecidableEq, Repr

/-- WorkflowMetadata.  Fields the controller tests for presence are
`Option`-valued; a missing JS field is `none`. -/
structure Metadata where
  requestUserRole : Option String
  workflowId : Option String
  currentApprovalLevel : Option Int
  requiredApprovalLevels : Option (List Int)
  approvalHistory : Option (List HistoryEntry)
  isFullyApproved : Bool
  deletionRequestedBy : Option String
  deletionRequestedAt : Option Day
  originalStatus : Option Status
  deletionRejectedBy : Option String
  deletionRejectedAt : Option Day
  deletionRejectionComments : Option String
deriving DecidableEq, Repr

/-- The empty metadata object (`leaveRequest.metadata || {}`). -/
def Metadata.empty : Metadata :=
  ⟨none, none, none, none, none, false, none, none, none, none, none, none⟩

/-- LeaveRequest row. -/
structure LeaveRequest where
  id : String
  userId : String
  leaveTypeId : String
  startDate : Day
  endDate : Day
  requestType : ReqType
  numberOfDays : ℤ
  reason : String
  status : Status
  approverId : Option String
  approverComments : Option String
  approvedAt : Option Day
  metadata : Option Metadata
deriving DecidableEq, Repr

/-- User row (only the fields the engine reads). -/
structure User where
  id : String
  firstName : String
  lastName : String
  email : String
  role : String
  roleId : Option String
  managerId : Option String
  teamLeadId : Option String
  department : Option String
  gender : Option String
  isActive : Bool
deriving DecidableEq, Repr

/-- LeaveType row (only the fields the engine reads). -/
structure LeaveType where
  id : String
  name : String
  isActive : Bool
  applicableGender : Option String
  isHalfDayAllowed : Bool
deriving DecidableEq, Repr

/-- LeaveBalance row. -/
structure LeaveBalance where
  id : String
  userId : String
  leaveTypeId : String
  year : Int
  balance : ℤ
  used : ℤ
  carryForward : ℤ
deriving DecidableEq, Repr

/-- The backing store: one list per table the engine touches. -/
structure State where
  requests : List LeaveRequest
  balances : List LeaveBalance
  workflows : List Workflow
  users : List User
  leaveTypes : List LeaveType
deriving DecidableEq, Repr

/-- External collaborators that are not part of the given sources, consumed
as opaque functions.  `businessDays` and `holidayNamesInRange` model
`utils/dateUtils` (`calculateBusinessDays`, `checkForHolidaysInRange`),
`halfDayValue` models `calculateHalfDayValue true`, and
`isApproverAuthorized` models `approverService.isApproverAuthorized`
(spec section 6: an opaque predicate). -/
structure Env where
  businessDays : Day → Day → ℤ
  holidayNamesInRange : Day → Day → List String
  halfDayValue : ℤ
  isApproverAuthorized : String → String → Bool

/-- UserRole.SUPER_ADMIN role name. -/
def superAdminRole : String := "super_admin"

/-- UserRole.HR role name. -/
def hrRole : String := "hr"

/-- The distinct controller outcomes the claims talk about.  Each constructor
corresponds to one `h.response(...).code(...)` return site family. -/
inductive Resp where
  /-- HTTP 201 from createLeaveRequest. -/
  | created
  /-- generic HTTP 200 success. -/
  | ok
  /-- HTTP 200: approved at a non-final level, pending higher approval. -/
  | partiallyApprovedAt (lvl : Int)
  /-- HTTP 200: deletion request recorded, pending approval. -/
  | deletionPending
  /-- HTTP 404. -/
  | notFound
  /-- HTTP 400: request already in the target status. -/
  | alreadyInStatus
  /-- HTTP 400: only pending / partially approved requests can transition. -/
  | invalidState
  /-- HTTP 403 from the authorization collaborator / ownership checks. -/
  | forbiddenAuth
  /-- HTTP 403: actor's role matches no (next) approval level. -/
  | forbiddenLevel
  /-- HTTP 409: overlapping approved/pending requests, with their ids. -/
  | overlapConflict (ids : List String)
  /-- HTTP 400: no approval workflow covers this duration. -/
  | noWorkflow
  /-- HTTP 400: no approver resolved for the first required level. -/
  | noApprover
  /-- HTTP 400: insufficient leave balance. -/
  | insufficientBalance
  /-- HTTP 400: some earlier input validation failed. -/
  | validationError
  /-- HTTP 500 (defensive branches). -/
  | serverError
deriving DecidableEq, Repr

/-! ### Sorting helpers (the controller's `.sort((a,b) => a.level - b.level)`
etc.).  Insertion sorts, stable like the JS sort on these small arrays. -/

/-- Insert a level into a list sorted by ascending `level`. -/
def insertLevel (x : Level) : List Level → List Level
  | [] => [x]
  | y :: ys => if x.level ≤ y.level then x :: y :: ys else y :: insertLevel x ys

/-- Sort approval levels by ascending `level`. -/
def sortLevels : List Level → List Level
  | [] => []
  | x :: xs => insertLevel x (sortLevels xs)

/-- Insert an integer into an ascending list. -/
def insertInt (x : Int) : List Int → List Int
  | [] => [x]
  | y :: ys => if x ≤ y then x :: y :: ys else y :: insertInt x ys

/-- Sort a list of level numbers ascending (used for the set-equality test of
`requiredApprovalLevels` against a workflow's levels; the JS code sorts both
sides with the same comparator before comparing element-wise, so sorted-list
equality is multiset equality on either comparator). -/
def sortInts : List Int → List Int
  | [] => []
  | x :: xs => insertInt x (sortInts xs)

/-- Insert a workflow into a list sorted by descending `minDays`. -/
def insertWfDesc (x : Workflow) : List Workflow → List Workflow
  | [] => [x]
  | y :: ys =>
    if y.minDays ≤ x.minDays then x :: y :: ys else y :: insertWfDesc x ys

/-- Sort workflows by descending `minDays` (`order: { minDays: "DESC" }`). -/
def sortWorkflowsDesc : List Workflow → List Workflow
  | [] => []
  | x :: xs => insertWfDesc x (sortWorkflowsDesc xs)

/-! ### Row lookup / persistence helpers. -/

/-- `leaveRequestRepository.findOne({ where: { id } })`. -/
def findRequest (s : State) (id : String) : Option LeaveRequest :=
  s.requests.find? (fun r => decide (r.id = id))

/-- `userRepository.findOne({ where: { id } })`. -/
def findUser (s : State) (id : String) : Option User :=
  s.users.find? (fun u => decide (u.id = id))

/-- `leaveBalanceRepository.findOne({ where: { userId, leaveTypeId, year } })`. -/
def findBalance (s : State) (uid ltId : String) (yr : Int) :
    Option LeaveBalance :=
  s.balances.find? (fun b =>
    decide (b.userId = uid) && decide (b.leaveTypeId = ltId) &&
      decide (b.year = yr))

/-- `leaveRequestRepository.save` on an existing row: replace by primary key. -/
def saveRequest (s : State) (r : LeaveRequest) : State :=
  { s with requests := s.requests.map (fun x => if x.id = r.id then r else x) }

/-- `leaveBalanceRepository.save` after mutating only `used`: write the new
`used` value onto the row with the given primary key. -/
def updateUsed (s : State) (bid : String) (v : ℤ) : State :=
  { s with balances :=
      s.balances.map (fun b => if b.id = bid then { b with used := v } else b) }

/-- `leaveRequestRepository.remove`. -/
def removeRequest (s : State) (id : String) : State :=
  { s with requests := s.requests.filter (fun r => !decide (r.id = id)) }

/-- The overlap re-check query of updateLeaveRequestStatus: other `approved`
requests of the same user whose date range intersects the request's range,
excluding the request itself. -/
def overlappingApproved (s : State) (req : LeaveRequest) : List LeaveRequest :=
  s.requests.filter (fun r =>
    decide (r.userId = req.userId) && decide (r.status = Status.approved) &&
      Day.le r.startDate req.endDate && Day.le req.startDate r.endDate &&
      !decide (r.id = req.id))

/-! ### updateLeaveRequestStatus (part_006 lines 685-1242). -/

/-- Does the approver's role match one approval level?  New format: the
approver's `roleId` must be among the level's non-empty `roleIds`; legacy
format (empty `roleIds`): the approver's role name must be in `roles`. -/
def levelMatches (approver : User) (l : Level) : Bool :=
  if l.roleIds ≠ [] then
    match approver.roleId with
    | some rid => l.roleIds.contains rid
    | none => false
  else l.roles.contains approver.role

/-- Determine the acting approver's level (lines 889-938).  For a partially
approved request with metadata, only the single next level
(`currentApprovalLevel + 1`) is checked; otherwise the first matching level
of the ascending-sorted list is taken.  A missing `currentApprovalLevel`
makes the JS `find` compare against `NaN` and fail, hence `none`. -/
def computeApproverLevel (req : LeaveRequest) (approver : User)
    (sorted : List Level) : Option Int :=
  match req.status, req.metadata with
  | Status.partiallyApproved, some md =>
    match md.currentApprovalLevel with
    | none => none
    | some cur =>
      match sorted.find? (fun l => decide (l.level = cur + 1)) with
      | none => none
      | some ld => if levelMatches approver ld then some (cur + 1) else none
  | _, _ => (sorted.find? (levelMatches approver)).map (fun l => l.level)

/-- Select the applicable workflow (lines 797-846): active workflows ordered
by descending `minDays`; for a partially approved request with metadata the
workflow whose level numbers equal the stored `requiredApprovalLevels` as
sorted lists, otherwise the one whose `[minDays, maxDays]` range contains
`numberOfDays`. -/
def applicableWorkflowFor (s : State) (req : LeaveRequest) : Option Workflow :=
  let wfs := sortWorkflowsDesc (s.workflows.filter (fun w => w.isActive))
  match req.status, req.metadata with
  | Status.partiallyApproved, some md =>
    wfs.find? (fun w =>
      match md.requiredApprovalLevels with
      | some reqLvls =>
        decide (sortInts (w.approvalLevels.map (fun l => l.level)) =
          sortInts reqLvls)
      | none => false)
  | _, _ =>
    wfs.find? (fun w =>
      decide (w.minDays ≤ req.numberOfDays) &&
        decide (req.numberOfDays ≤ w.maxDays))

/-- One approval-history entry as pushed by the controller. -/
def mkHistoryEntry (lvl : Int) (approver : User) (now : Day)
    (comments : Option String) : HistoryEntry :=
  ⟨lvl, approver.id, approver.firstName ++ " " ++ approver.lastName, now,
    comments⟩

/-- The `approverComments` string built on the non-final approval path
(lines 955-965). -/
def partStepComments (old : Option String) (lvl : Int) (approver : User)
    (comments : Option String) : String :=
  let cc := "Approved at level " ++ toString lvl ++ " by " ++
    approver.firstName ++ " " ++ approver.lastName
  let base :=
    match old with
    | some e => if e ≠ "" then e ++ "\n" ++ cc else cc
    | none => cc
  match comments with
  | some c => base ++ "\nComments: " ++ c
  | none => base

/-- Metadata update of the full-approval branch inside the workflow block
(lines 1100-1115): push a history entry and mark `isFullyApproved`. -/
def fullApproveMeta (req : LeaveRequest) (lvl : Int) (approver : User)
    (now : Day) (comments : Option String) : LeaveRequest :=
  let md := req.metadata.getD Metadata.empty
  let md1 := { md with
    approvalHistory :=
      some ((md.approvalHistory.getD []) ++
        [mkHistoryEntry lvl approver now comments])
    isFullyApproved := true }
  { req with metadata := some md1 }

/-- Metadata update of the common tail for `status=approved` (lines
1131-1153): if `approvalHistory` is present, push another entry (level
`currentApprovalLevel + 1` when that field is truthy, else `1`) and mark
`isFullyApproved`. -/
def finalMeta (md : Metadata) (approver : User) (now : Day)
    (comments : Option String) : Metadata :=
  match md.approvalHistory with
  | none => md
  | some hist =>
    let lvl : Int :=
      match md.currentApprovalLevel with
      | some n => if n ≠ 0 then n + 1 else 1
      | none => 1
    { md with
      approvalHistory :=
        some (hist ++ [mkHistoryEntry lvl approver now comments])
      isFullyApproved := true }

/-- The request row written by the common tail of updateLeaveRequestStatus
(lines 1119-1153): new status, comments, approver and timestamp; for
`status=approved` additionally the `finalMeta` metadata update. -/
def finalizedRequest (req : LeaveRequest) (target : Status)
    (comments : Option String) (approverId : String) (approver : User)
    (now : Day) : LeaveRequest :=
  { req with
    status := target
    approverComments :=
      match comments with
      | some c => some c
      | none => req.approverComments
    approverId := some approverId
    approvedAt := some now
    metadata :=
      if target = Status.approved then
        match req.metadata with
        | some md => some (finalMeta md approver now comments)
        | none => none
      else req.metadata }

/-- Common tail of updateLeaveRequestStatus (lines 1119-1228): write the new
status, comments, approver and timestamp, save, and — only for
`status=approved` — re-check the overlap AFTER the save and, if clear,
increment `LeaveBalance.used` of the current year's row. -/
def finalizeStatus (s : State) (req : LeaveRequest) (target : Status)
    (comments : Option String) (approverId : String) (approver : User)
    (now : Day) : Resp × State :=
  let req2 := finalizedRequest req target comments approverId approver now
  let s1 := saveRequest s req2
  if target = Status.approved then
    let overl := overlappingApproved s1 req
    if overl ≠ [] then
      (Resp.overlapConflict (overl.map (fun r => r.id)), s1)
    else
      match findBalance s1 req.userId req.leaveTypeId now.year with
      | some bal => (Resp.ok, updateUsed s1 bal.id (bal.used + req.numberOfDays))
      | none => (Resp.ok, s1)
  else (Resp.ok, s1)

/-- The request row written by the non-final approval branch: status
`partially_approved`, approver, appended comments, and the metadata update
(current level, the workflow's FULL sorted level list, preserved requester
role, appended history entry). -/
def partSteppedRequest (req : LeaveRequest) (requestUser : User)
    (approver : User) (approverId : String) (comments : Option String)
    (now : Day) (sorted : List Level) (lvl : Int) : LeaveRequest :=
  let md := req.metadata.getD Metadata.empty
  let md1 := { md with
    currentApprovalLevel := some lvl
    requiredApprovalLevels := some (sorted.map (fun l => l.level))
    requestUserRole :=
      match md.requestUserRole with
      | none => some requestUser.role
      | some r => some r
    approvalHistory :=
      some ((md.approvalHistory.getD []) ++
        [mkHistoryEntry lvl approver now comments]) }
  { req with
    status := Status.partiallyApproved
    approverId := some approverId
    approverComments :=
      some (partStepComments req.approverComments lvl approver comments)
    metadata := some md1 }

/-- The non-final approval branch (lines 954-1097): build the appended
comments, re-check the overlap BEFORE saving, then record the partial
approval and save. -/
def partStepApprove (s : State) (req : LeaveRequest) (requestUser : User)
    (approver : User) (approverId : String) (comments : Option String)
    (now : Day) (sorted : List Level) (lvl : Int) : Resp × State :=
  let overl := overlappingApproved s req
  if overl ≠ [] then
    (Resp.overlapConflict (overl.map (fun r => r.id)), s)
  else
    (Resp.partiallyApprovedAt lvl,
      saveRequest s
        (partSteppedRequest req requestUser approver approverId comments now
          sorted lvl))

/-- The workflow block of updateLeaveRequestStatus for `status=approved`
(lines 848-1116): sort the levels, find the actor's level (403 if none),
compare against the workflow's highest level, and either take the partial
step or fall through to the final assignment with the fully-approved
metadata. -/
def approveWithWorkflow (s : State) (req : LeaveRequest) (requestUser : User)
    (approver : User) (approverId : String) (comments : Option String)
    (now : Day) (wf : Workflow) : Resp × State :=
  let sorted := sortLevels wf.approvalLevels
  match computeApproverLevel req approver sorted with
  | none => (Resp.forbiddenLevel, s)
  | some lvl =>
    match sorted.getLast? with
    | none => (Resp.serverError, s)
    | some lastL =>
      if lvl < lastL.level then
        partStepApprove s req requestUser approver approverId comments now
          sorted lvl
      else
        finalizeStatus s (fullApproveMeta req lvl approver now comments)
          Status.approved comments approverId approver now

/-- updateLeaveRequestStatus (part_006 lines 685-1242).  `target` is the
already-normalized status from the payload. -/
def updateLeaveRequestStatus (env : Env) (s : State) (id : String)
    (target : Status) (comments : Option String) (approverId : String)
    (now : Day) : Resp × State :=
  match findRequest s id with
  | none => (Resp.notFound, s)
  | some req =>
    if req.status = target then (Resp.alreadyInStatus, s)
    else if (req.status ≠ Status.pending ∧
        req.status ≠ Status.partiallyApproved) ∧
        target ≠ Status.cancelled then
      (Resp.invalidState, s)
    else
      match findUser s approverId with
      | none => (Resp.notFound, s)
      | some approver =>
        match findUser s req.userId with
        | none => (Resp.notFound, s)
        | some requestUser =>
          if ¬ env.isApproverAuthorized approverId req.userId = true ∧
              ¬ (req.userId = approverId ∧ target = Status.cancelled) then
            (Resp.forbiddenAuth, s)
          else if target = Status.approved then
            match applicableWorkflowFor s req with
            | some wf =>
              approveWithWorkflow s req requestUser approver approverId
                comments now wf
            | none =>
              finalizeStatus s req target comments approverId approver now
          else finalizeStatus s req target comments approverId approver now

/-! ### cancelLeaveRequest (part_006 lines 1244-1349). -/

/-- cancelLeaveRequest: owner-only; rejects an already-cancelled request;
rejects cancelling an approved request that already started; for an approved
request decrements `used` of the current year's balance row (NO clamping in
the source), then sets `status=cancelled` and saves. -/
def cancelLeaveRequest (env : Env) (s : State) (id userId : String)
    (now : Day) : Resp × State :=
  match findRequest s id with
  | none => (Resp.notFound, s)
  | some req =>
    if req.userId ≠ userId then (Resp.forbiddenAuth, s)
    else if req.status = Status.cancelled then (Resp.alreadyInStatus, s)
    else
      let afterBalance :=
        if req.status = Status.approved then
          if Day.lt req.startDate now then none
          else
            match findBalance s req.userId req.leaveTypeId now.year with
            | some bal => some (updateUsed s bal.id (bal.used - req.numberOfDays))
            | none => some s
        else some s
      match afterBalance with
      | none => (Resp.invalidState, s)
      | some s1 =>
        (Resp.ok, saveRequest s1 { req with status := Status.cancelled })

/-! ### rejectDeleteLeaveRequest (part_006 lines 1351-1455). -/

/-- rejectDeleteLeaveRequest: requires `status=pending_deletion` and a
manager / admin / HR actor; restores `metadata.originalStatus` (defaulting
to `approved`), records the rejection metadata and saves.  The balances are
never touched. -/
def rejectDeleteLeaveRequest (env : Env) (s : State) (id : String)
    (comments : Option String) (approverId : String) (now : Day) :
    Resp × State :=
  match findRequest s id with
  | none => (Resp.notFound, s)
  | some req =>
    if req.status ≠ Status.pendingDeletion then (Resp.invalidState, s)
    else
      match findUser s approverId with
      | none => (Resp.notFound, s)
      | some approver =>
        match findUser s req.userId with
        | none => (Resp.notFound, s)
        | some requestUser =>
          if ¬ (requestUser.managerId = some approverId ∨
              approver.role = superAdminRole ∨ approver.role = hrRole) then
            (Resp.forbiddenAuth, s)
          else
            let restored := ((req.metadata.bind
              (fun m => m.originalStatus)).getD Status.approved)
            let md := req.metadata.getD Metadata.empty
            let md1 := { md with
              deletionRejectedBy := some approverId
              deletionRejectedAt := some now
              deletionRejectionComments := comments }
            (Resp.ok, saveRequest s
              { req with status := restored, metadata := some md1 })

/-! ### approveDeleteLeaveRequest (part_006 lines 1457-1588). -/

/-- approveDeleteLeaveRequest: requires `status=pending_deletion` and a
manager / admin / HR actor; if `metadata.originalStatus` was `approved` or
`partially_approved`, decrements `used` (clamped at 0) on the balance row of
the request's START-DATE year, then hard-deletes the request row. -/
def approveDeleteLeaveRequest (env : Env) (s : State) (id : String)
    (comments : Option String) (approverId : String) : Resp × State :=
  match findRequest s id with
  | none => (Resp.notFound, s)
  | some req =>
    if req.status ≠ Status.pendingDeletion then (Resp.invalidState, s)
    else
      match findUser s approverId with
      | none => (Resp.notFound, s)
      | some approver =>
        match findUser s req.userId with
        | none => (Resp.notFound, s)
        | some requestUser =>
          if ¬ (requestUser.managerId = some approverId ∨
              approver.role = superAdminRole ∨ approver.role = hrRole) then
            (Resp.forbiddenAuth, s)
          else
            let orig := req.metadata.bind (fun m => m.originalStatus)
            let s1 :=
              if orig = some Status.approved ∨
                  orig = some Status.partiallyApproved then
                match findBalance s req.userId req.leaveTypeId
                    req.startDate.year with
                | some bal =>
                  updateUsed s bal.id (max 0 (bal.used - req.numberOfDays))
                | none => s
              else s
            (Resp.ok, removeRequest s1 id)

/-! ### deleteLeaveRequest (part_006 lines 1590-1790). -/

/-- deleteLeaveRequest: owner or admin/HR only.  For an approved / partially
approved request of an owner (not admin/HR) whose applicable workflow has
more than one level, only mark `pending_deletion` with deletion metadata.
Otherwise revert `used` (clamped at 0) on the START-DATE year's balance row
when the status was approved / partially approved, and hard-delete.
`deletionHold` is the hold condition: approved / partially approved status,
owner (not admin/HR), and an applicable workflow with more than one
level. -/
def deletionHold (s : State) (req : LeaveRequest) (userId userRole : String) :
    Bool :=
  if (req.status = Status.approved ∨
      req.status = Status.partiallyApproved) ∧ req.userId = userId ∧
      ¬ (userRole = superAdminRole ∨ userRole = hrRole) then
    match (sortWorkflowsDesc (s.workflows.filter
        (fun w => w.isActive))).find? (fun w =>
        decide (w.minDays ≤ req.numberOfDays) &&
          decide (req.numberOfDays ≤ w.maxDays)) with
    | some wf => decide (wf.approvalLevels.length > 1)
    | none => false
  else false

/-- deleteLeaveRequest (part_006 lines 1590-1790), see the comment above. -/
def deleteLeaveRequest (env : Env) (s : State) (id userId userRole : String)
    (now : Day) : Resp × State :=
  match findRequest s id with
  | none => (Resp.notFound, s)
  | some req =>
    if ¬ req.userId = userId ∧
        ¬ (userRole = superAdminRole ∨ userRole = hrRole) then
      (Resp.forbiddenAuth, s)
    else
      if deletionHold s req userId userRole then
        let md := req.metadata.getD Metadata.empty
        let md1 := { md with
          deletionRequestedBy := some userId
          deletionRequestedAt := some now
          originalStatus := some req.status }
        (Resp.deletionPending, saveRequest s
          { req with status := Status.pendingDeletion, metadata := some md1 })
      else
        let s1 :=
          if req.status = Status.approved ∨
              req.status = Status.partiallyApproved then
            match findBalance s req.userId req.leaveTypeId
                req.startDate.year with
            | some bal =>
              updateUsed s bal.id (max 0 (bal.used - req.numberOfDays))
            | none => s
          else s
        (Resp.ok, removeRequest s1 id)

/-! ### createLeaveRequest (part_006 lines 27-433). -/

/-- The payload of createLeaveRequest. -/
structure CreateInput where
  leaveTypeId : String
  startDate : Day
  endDate : Day
  requestType : Option ReqType
  reason : String
deriving DecidableEq, Repr

/-- The values the validation prelude hands to the rest of the handler. -/
structure CreateCtx where
  user : User
  leaveType : LeaveType
  numberOfDays : ℤ
deriving DecidableEq, Repr

/-- The validation prelude of createLeaveRequest (lines 39-250), in source
order: required fields, date ordering, no past start, no holidays in range,
leave type exists / active, user exists, gender applicability, half-day
allowed, day count (half-day only on a single date), no overlap with the
user's pending/approved requests, balance row exists and
`numberOfDays <= balance + carryForward - used - pendingDays`. -/
def createChecks (env : Env) (s : State) (userId : String)
    (inp : CreateInput) (now : Day) : Except Resp CreateCtx := do
  if inp.leaveTypeId = "" ∨ inp.reason = "" then throw Resp.validationError
  if Day.lt inp.endDate inp.startDate then throw Resp.validationError
  if Day.lt inp.startDate now then throw Resp.validationError
  if env.holidayNamesInRange inp.startDate inp.endDate ≠ [] then
    throw Resp.validationError
  let leaveType ←
    match s.leaveTypes.find? (fun t => decide (t.id = inp.leaveTypeId)) with
    | some t => pure t
    | none => throw Resp.notFound
  if ¬ leaveType.isActive = true then throw Resp.validationError
  let user ←
    match findUser s userId with
    | some u => pure u
    | none => throw Resp.notFound
  if (match leaveType.applicableGender with
      | some g => decide (user.gender ≠ some g)
      | none => false : Bool) then
    throw Resp.validationError
  if (match inp.requestType with
      | some rt => decide (rt ≠ ReqType.fullDay) && !leaveType.isHalfDayAllowed
      | none => false : Bool) then
    throw Resp.validationError
  let numberOfDays ←
    match inp.requestType with
    | some rt =>
      if rt ≠ ReqType.fullDay then
        if inp.startDate ≠ inp.endDate then throw Resp.validationError
        else pure env.halfDayValue
      else pure (env.businessDays inp.startDate inp.endDate)
    | none => pure (env.businessDays inp.startDate inp.endDate)
  let overlapping := s.requests.filter (fun r =>
    decide (r.userId = userId) &&
      (decide (r.status = Status.pending) ||
        decide (r.status = Status.approved)) &&
      Day.le r.startDate inp.endDate && Day.le inp.startDate r.endDate)
  if h : overlapping ≠ [] then
    throw (Resp.overlapConflict [(overlapping.head h).id])
  let bal ←
    match findBalance s userId inp.leaveTypeId now.year with
    | some b => pure b
    | none => throw Resp.notFound
  let pendingDays := (s.requests.filter (fun r =>
    decide (r.userId = userId) &&
      decide (r.leaveTypeId = inp.leaveTypeId) &&
      decide (r.status = Status.pending))).foldl
    (fun acc r => acc + r.numberOfDays) 0
  if bal.balance + bal.carryForward - bal.used - pendingDays <
      numberOfDays then
    throw Resp.insufficientBalance
  pure ⟨user, leaveType, numberOfDays⟩

/-- `leaveRequestService.getApprovalWorkflow` is not among the given sources;
it mirrors `getApprovalWorkflowForDuration` (part_003 lines 230-255) and
spec section 4.1 `findApplicableWorkflow`: the active workflow whose
`[minDays, maxDays]` range contains the duration. -/
def getApprovalWorkflow (s : State) (days : ℤ) : Option Workflow :=
  (s.workflows.filter (fun w => w.isActive)).find? (fun w =>
    decide (w.minDays ≤ days) && decide (days ≤ w.maxDays))

/-- The creation-time metadata (lines 263-310): requester role, history `[]`,
`currentApprovalLevel = 0`, and `requiredApprovalLevels` = the workflow's
ascending level numbers minus every level whose `roleIds` contains the
requester's role. -/
def buildMetadata (user : User) (wf : Workflow) : Metadata :=
  let sorted := sortLevels wf.approvalLevels
  let requiredLevels := (sorted.map (fun l => l.level)).filter (fun lv =>
    match sorted.find? (fun l => decide (l.level = lv)) with
    | some ld => !ld.roleIds.contains user.role
    | none => true)
  { Metadata.empty with
    requestUserRole := some user.role
    isFullyApproved := false
    approvalHistory := some []
    currentApprovalLevel := some 0
    requiredApprovalLevels := some requiredLevels
    workflowId := some wf.id }

/-- The new LeaveRequest row built by createLeaveRequest. -/
def mkLeaveRequest (newId userId : String) (inp : CreateInput)
    (numberOfDays : ℤ) (md : Metadata) : LeaveRequest :=
  { id := newId
    userId := userId
    leaveTypeId := inp.leaveTypeId
    startDate := inp.startDate
    endDate := inp.endDate
    requestType := inp.requestType.getD ReqType.fullDay
    numberOfDays := numberOfDays
    reason := inp.reason
    status := Status.pending
    approverId := none
    approverComments := none
    approvedAt := none
    metadata := some md }

/-- Modelled from the spec: `approverService.findApproversByRoleIds` is not
among the given sources.  Per spec section 4.2, it resolves the active users
whose `roleId` is among the level's `roleIds`, restricted to the supplied
department when one is given, de-duplicated by user id (our list of users
is keyed by id, so the filter itself is duplicate-free per row). -/
def findApproversByRoleIds (s : State) (roleIds : List String)
    (department : Option String) : List User :=
  s.users.filter (fun u =>
    u.isActive &&
      (match u.roleId with
       | some rid => roleIds.contains rid
       | none => false) &&
      (match department with
       | some d => decide (u.department = some d)
       | none => true))

/-- The notification block of createLeaveRequest (lines 329-390): re-fetch
the workflow by the stored id, locate the level definition of the FIRST
required level, and resolve its approvers by role ids.  Empty `roleIds`, a
missing level definition or a missing workflow all yield the empty list. -/
def resolveFirstLevelApprovers (s : State) (md : Metadata) (user : User) :
    List User :=
  match md.requiredApprovalLevels with
  | some (firstLevel :: _) =>
    match md.workflowId with
    | some wid =>
      match s.workflows.find? (fun w => decide (w.id = wid)) with
      | some wf =>
        match wf.approvalLevels.find? (fun l => decide (l.level = firstLevel)) with
        | some ld =>
          if ld.roleIds ≠ [] then
            findApproversByRoleIds s ld.roleIds user.department
          else []
        | none => []
      | none => []
    | none => []
  | _ => []

/-- createLeaveRequest (part_006 lines 27-433): after the validation
prelude, resolve the workflow (400 if none), build the metadata, SAVE the
new request, and only then resolve the first level's approvers — returning
the no-approver error (with the request already persisted) when the
resolved set is empty and the required level list is non-empty. -/
def createLeaveRequest (env : Env) (s : State) (userId : String)
    (inp : CreateInput) (newId : String) (now : Day) : Resp × State :=
  match createChecks env s userId inp now with
  | Except.error r => (r, s)
  | Except.ok ctx =>
    match getApprovalWorkflow s ctx.numberOfDays with
    | none => (Resp.noWorkflow, s)
    | some wf =>
      let md := buildMetadata ctx.user wf
      let req := mkLeaveRequest newId userId inp ctx.numberOfDays md
      let s1 := { s with requests := s.requests ++ [req] }
      match md.requiredApprovalLevels with
      | some (_ :: _) =>
        if resolveFirstLevelApprovers s1 md ctx.user = [] then
          (Resp.noApprover, s1)
        else (Resp.created, s1)
      | _ => (Resp.created, s1)

/-! ### Workflow catalog (part_003: createApprovalWorkflow lines 30-67,
updateApprovalWorkflow lines 128-198). -/

/-- createApprovalWorkflow: reject a duplicate name, reject when the new
`[minDays, maxDays]` range intersects ANY existing workflow's range
(`minDays <= new.maxDays && maxDays >= new.minDays`, not restricted to
active rows), otherwise append. -/
def createApprovalWorkflow (ws : List Workflow) (wf : Workflow) :
    Except String (List Workflow) :=
  if ws.any (fun w => decide (w.name = wf.name)) then
    Except.error "Approval workflow with this name already exists"
  else if ws.any (fun w =>
      decide (w.minDays ≤ wf.maxDays) && decide (wf.minDays ≤ w.maxDays)) then
    Except.error "This workflow overlaps with an existing workflow"
  else Except.ok (ws ++ [wf])

/-- The `Partial<ApprovalWorkflow>` update payload. -/
structure WfPatch where
  name : Option String
  minDays : Option ℤ
  maxDays : Option ℤ
  approvalLevels : Option (List Level)
  isActive : Option Bool
deriving DecidableEq, Repr

/-- `repository.merge`: overwrite exactly the supplied fields. -/
def mergePatch (w : Workflow) (p : WfPatch) : Workflow :=
  { w with
    name := p.name.getD w.name
    minDays := p.minDays.getD w.minDays
    maxDays := p.maxDays.getD w.maxDays
    approvalLevels := p.approvalLevels.getD w.approvalLevels
    isActive := p.isActive.getD w.isActive }

/-- updateApprovalWorkflow: find by id, reject a clashing new name, and when
`minDays` or `maxDays` actually changes re-validate the merged range against
every OTHER workflow (`id != wid`), then merge and save. -/
def updateApprovalWorkflow (ws : List Workflow) (wid : String)
    (p : WfPatch) : Except String (List Workflow) :=
  match ws.find? (fun w => decide (w.id = wid)) with
  | none => Except.error "Approval workflow not found"
  | some wf =>
    if (match p.name with
        | some n => decide (n ≠ wf.name) && ws.any (fun w => decide (w.name = n))
        | none => false : Bool) then
      Except.error "Approval workflow name is already in use"
    else
      let changed : Bool :=
        (match p.minDays with
         | some m => decide (m ≠ wf.minDays)
         | none => false) ||
        (match p.maxDays with
         | some m => decide (m ≠ wf.maxDays)
         | none => false)
      let newMin := p.minDays.getD wf.minDays
      let newMax := p.maxDays.getD wf.maxDays
      if changed && ws.any (fun w =>
          !decide (w.id = wid) && decide (w.minDays ≤ newMax) &&
            decide (newMin ≤ w.maxDays)) then
        Except.error "This workflow would overlap with an existing workflow"
      else
        Except.ok (ws.map (fun w => if w.id = wid then mergePatch wf p else w))

/-! ### The engine as one step function (for the global balance-ledger
invariant). -/

/-- One invocation of any engine operation. -/
inductive Op where
  | updateStatus (id : String) (target : Status) (comments : Option String)
      (approverId : String) (now : Day)
  | cancel (id userId : String) (now : Day)
  | rejectDel (id : String) (comments : Option String) (approverId : String)
      (now : Day)
  | approveDel (id : String) (comments : Option String) (approverId : String)
  | del (id userId userRole : String) (now : Day)
  | create (userId : String) (inp : CreateInput) (newId : String) (now : Day)
  | createWf (wf : Workflow)
  | updateWf (wid : String) (p : WfPatch)

/-- Dispatch one operation against the store. -/
def step (env : Env) (s : State) : Op → Resp × State
  | Op.updateStatus id target comments approverId now =>
    updateLeaveRequestStatus env s id target comments approverId now
  | Op.cancel id userId now => cancelLeaveRequest env s id userId now
  | Op.rejectDel id comments approverId now =>
    rejectDeleteLeaveRequest env s id comments approverId now
  | Op.approveDel id comments approverId =>
    approveDeleteLeaveRequest env s id comments approverId
  | Op.del id userId userRole now =>
    deleteLeaveRequest env s id userId userRole now
  | Op.create userId inp newId now =>
    createLeaveRequest env s userId inp newId now
  | Op.createWf wf =>
    match createApprovalWorkflow s.workflows wf with
    | Except.ok ws => (Resp.ok, { s with workflows := ws })
    | Except.error _ => (Resp.validationError, s)
  | Op.updateWf wid p =>
    match updateApprovalWorkflow s.workflows wid p with
    | Except.ok ws => (Resp.ok, { s with workflows := ws })
    | Except.error _ => (Resp.validationError, s)

/-! ### Basic lemmas about the store helpers. -/

theorem findRequest_id {s : State} {id : String} {r : LeaveRequest}
    (h : findRequest s id = some r) : r.id = id := by
  have := List.find?_some h
  simpa using this

theorem saveRequest_balances (s : State) (r : LeaveRequest) :
    (saveRequest s r).balances = s.balances := rfl

theorem saveRequest_workflows (s : State) (r : LeaveRequest) :
    (saveRequest s r).workflows = s.workflows := rfl

theorem updateUsed_requests (s : State) (bid : String) (v : ℤ) :
    (updateUsed s bid v).requests = s.requests := rfl

/-- Replacing the rows that carry one id leaves any filter untouched whose
predicate is false both on the replaced and on the replacing row. -/
theorem filter_map_replace (l : List LeaveRequest) (x : LeaveRequest)
    (p : LeaveRequest → Bool) (hpx : p x = false)
    (hdrop : ∀ y, y.id = x.id → p y = false) :
    (l.map (fun y => if y.id = x.id then x else y)).filter p = l.filter p := by
  induction l with
  | nil => rfl
  | cons y ys ih =>
    simp only [List.map_cons]
    by_cases hy : y.id = x.id
    · rw [if_pos hy, List.filter_cons, List.filter_cons, hpx, hdrop y hy]
      simpa using ih
    · rw [if_neg hy, List.filter_cons, List.filter_cons, ih]

/-- Saving a row with the request's own id does not change the overlap
query: rows with that id are excluded by the query itself, all other rows
are untouched. -/
theorem overlappingApproved_saveRequest (s : State) (x req : LeaveRequest)
    (hx : x.id = req.id) :
    overlappingApproved (saveRequest s x) req = overlappingApproved s req := by
  unfold overlappingApproved saveRequest
  exact filter_map_replace s.requests x _ (by simp [hx])
    (fun y hy => by simp [hy, hx])

/-- Replacing the rows that carry the looked-up id makes the lookup return
the replacement, provided such a row existed. -/
theorem find?_map_replace (l : List LeaveRequest) (x : LeaveRequest)
    (id : String) (hx : x.id = id) {r : LeaveRequest}
    (hex : l.find? (fun r => decide (r.id = id)) = some r) :
    (l.map (fun y => if y.id = x.id then x else y)).find?
      (fun r => decide (r.id = id)) = some x := by
  induction l with
  | nil => simp at hex
  | cons y ys ih =>
    simp only [List.map_cons]
    by_cases hy : y.id = id
    · have hyx : y.id = x.id := by rw [hy, hx]
      rw [if_pos hyx]
      exact List.find?_cons_of_pos _ (by simp [hx])
    · have hyx : ¬ y.id = x.id := by rw [hx]; exact hy
      rw [if_neg hyx]
      rw [List.find?_cons_of_neg _ (by simp [hy])] at hex
      rw [List.find?_cons_of_neg _ (by simp [hy])]
      exact ih hex

/-- Saving a row whose id is the looked-up id makes the lookup return that
row, provided a row with the id existed. -/
theorem findRequest_saveRequest (s : State) (x : LeaveRequest) (id : String)
    {r : LeaveRequest} (hex : findRequest s id = some r) (hx : x.id = id) :
    findRequest (saveRequest s x) id = some x := by
  unfold findRequest saveRequest
  unfold findRequest at hex
  exact find?_map_replace s.requests x id hx hex

/-- Every balance row after `updateUsed` comes from a pre-state row with
the same non-`used` fields, and its `used` is either unchanged or the
written value. -/
theorem mem_updateUsed {s : State} {bid : String} {v : ℤ}
    {b' : LeaveBalance} (h : b' ∈ (updateUsed s bid v).balances) :
    ∃ b ∈ s.balances, b'.id = b.id ∧ b'.userId = b.userId ∧
      b'.leaveTypeId = b.leaveTypeId ∧ b'.year = b.year ∧
      b'.balance = b.balance ∧ b'.carryForward = b.carryForward ∧
      (b'.used = b.used ∨ (b'.used = v ∧ b.id = bid)) := by
  unfold updateUsed at h
  simp only [List.mem_map] at h
  obtain ⟨b, hb, hmap⟩ := h
  refine ⟨b, hb, ?_⟩
  by_cases hid : b.id = bid
  · rw [if_pos hid] at hmap
    subst hmap
    exact ⟨rfl, rfl, rfl, rfl, rfl, rfl, Or.inr ⟨rfl, hid⟩⟩
  · rw [if_neg hid] at hmap
    subst hmap
    exact ⟨rfl, rfl, rfl, rfl, rfl, rfl, Or.inl rfl⟩

/-- The balance row found by `findBalance` is a member with the queried
key fields. -/
theorem findBalance_spec {s : State} {uid ltId : String} {yr : Int}
    {b : LeaveBalance} (h : findBalance s uid ltId yr = some b) :
    b ∈ s.balances ∧ b.userId = uid ∧ b.leaveTypeId = ltId ∧ b.year = yr := by
  unfold findBalance at h
  refine ⟨List.mem_of_find?_eq_some h, ?_⟩
  have := List.find?_some h
  simp only [Bool.and_eq_true, decide_eq_true_eq] at this
  exact ⟨this.1.1, this.1.2, this.2⟩

theorem finalizedRequest_id (req : LeaveRequest) (t : Status)
    (c : Option String) (aid : String) (ap : User) (n : Day) :
    (finalizedRequest req t c aid ap n).id = req.id := rfl

theorem finalizedRequest_status (req : LeaveRequest) (t : Status)
    (c : Option String) (aid : String) (ap : User) (n : Day) :
    (finalizedRequest req t c aid ap n).status = t := rfl

theorem fullApproveMeta_id (req : LeaveRequest) (lvl : Int) (ap : User)
    (n : Day) (c : Option String) :
    (fullApproveMeta req lvl ap n c).id = req.id := rfl

/-- Routing lemma: with the request found, in an approvable status, the
users resolved, the authorization collaborator consenting and an applicable
workflow found, an approval lands in the workflow block. -/
theorem updateStatus_routed (env : Env) (s : State) (id : String)
    (comments : Option String) (approverId : String) (now : Day)
    {req : LeaveRequest} {approver requestUser : User} {wf : Workflow}
    (hfind : findRequest s id = some req)
    (hst : req.status = Status.pending ∨
      req.status = Status.partiallyApproved)
    (hAppr : findUser s approverId = some approver)
    (hReqU : findUser s req.userId = some requestUser)
    (hAuth : env.isApproverAuthorized approverId req.userId = true)
    (hWf : applicableWorkflowFor s req = some wf) :
    updateLeaveRequestStatus env s id Status.approved comments approverId
      now =
    approveWithWorkflow s req requestUser approver approverId comments now
      wf := by
  rcases hst with h | h <;>
    simp [updateLeaveRequestStatus, hfind, hAppr, hReqU, hWf, hAuth, h]

/-- In the workflow block, a matched level that is not below the workflow's
highest level falls through to the final assignment with the
fully-approved metadata. -/
theorem approveWithWorkflow_full (s : State) (req : LeaveRequest)
    (requestUser approver : User) (approverId : String)
    (comments : Option String) (now : Day) (wf : Workflow) {lvl : Int}
    {lastL : Level}
    (hLvl : computeApproverLevel req approver (sortLevels wf.approvalLevels)
      = some lvl)
    (hLast : (sortLevels wf.approvalLevels).getLast? = some lastL)
    (hHi : ¬ lvl < lastL.level) :
    approveWithWorkflow s req requestUser approver approverId comments now
      wf =
    finalizeStatus s (fullApproveMeta req lvl approver now comments)
      Status.approved comments approverId approver now := by
  simp [approveWithWorkflow, hLvl, hLast, hHi]

/-- In the workflow block, a matched level below the workflow's highest
level takes the partial-approval step. -/
theorem approveWithWorkflow_part (s : State) (req : LeaveRequest)
    (requestUser approver : User) (approverId : String)
    (comments : Option String) (now : Day) (wf : Workflow) {lvl : Int}
    {lastL : Level}
    (hLvl : computeApproverLevel req approver (sortLevels wf.approvalLevels)
      = some lvl)
    (hLast : (sortLevels wf.approvalLevels).getLast? = some lastL)
    (hLo : lvl < lastL.level) :
    approveWithWorkflow s req requestUser approver approverId comments now
      wf =
    partStepApprove s req requestUser approver approverId comments now
      (sortLevels wf.approvalLevels) lvl := by
  simp [approveWithWorkflow, hLvl, hLast, hLo]

/-- The final assignment to `approved` when the post-save overlap re-check
finds a conflict: 409 with the conflicting ids, and the state ALREADY holds
the request saved as approved; balances untouched. -/
theorem finalizeStatus_conflict (s : State) (req : LeaveRequest)
    (comments : Option String) (approverId : String) (approver : User)
    (now : Day) (hOv : overlappingApproved s req ≠ []) :
    finalizeStatus s req Status.approved comments approverId approver now =
    (Resp.overlapConflict ((overlappingApproved s req).map (fun r => r.id)),
      saveRequest s
        (finalizedRequest req Status.approved comments approverId approver
          now)) := by
  have h := overlappingApproved_saveRequest s
    (finalizedRequest req Status.approved comments approverId approver now)
    req rfl
  simp [finalizeStatus, h, hOv]

/-- The final assignment to `approved` when the overlap re-check is clear
and a current-year balance row exists: 200 plus the `used` increment. -/
theorem finalizeStatus_success (s : State) (req : LeaveRequest)
    (comments : Option String) (approverId : String) (approver : User)
    (now : Day) {bal : LeaveBalance}
    (hOv : overlappingApproved s req = [])
    (hbal : findBalance s req.userId req.leaveTypeId now.year = some bal) :
    finalizeStatus s req Status.approved comments approverId approver now =
    (Resp.ok,
      updateUsed
        (saveRequest s
          (finalizedRequest req Status.approved comments approverId approver
            now))
        bal.id (bal.used + req.numberOfDays)) := by
  have h := overlappingApproved_saveRequest s
    (finalizedRequest req Status.approved comments approverId approver now)
    req rfl
  have hbal1 : findBalance
      (saveRequest s
        (finalizedRequest req Status.approved comments approverId approver
          now))
      req.userId req.leaveTypeId now.year = some bal := hbal
  simp [finalizeStatus, h, hOv, hbal1]

/-- The final assignment to `approved` when the overlap re-check is clear
but no current-year balance row exists: 200 and no balance mutation. -/
theorem finalizeStatus_noBalance (s : State) (req : LeaveRequest)
    (comments : Option String) (approverId : String) (approver : User)
    (now : Day)
    (hOv : overlappingApproved s req = [])
    (hbal : findBalance s req.userId req.leaveTypeId now.year = none) :
    finalizeStatus s req Status.approved comments approverId approver now =
    (Resp.ok,
      saveRequest s
        (finalizedRequest req Status.approved comments approverId approver
          now)) := by
  have h := overlappingApproved_saveRequest s
    (finalizedRequest req Status.approved comments approverId approver now)
    req rfl
  have hbal1 : findBalance
      (saveRequest s
        (finalizedRequest req Status.approved comments approverId approver
          now))
      req.userId req.leaveTypeId now.year = none := hbal
  simp [finalizeStatus, h, hOv, hbal1]

/-- The common tail for a non-`approved` target: save and return 200, no
overlap check, no balance mutation. -/
theorem finalizeStatus_nonApproved (s : State) (req : LeaveRequest)
    (target : Status) (comments : Option String) (approverId : String)
    (approver : User) (now : Day) (h : target ≠ Status.approved) :
    finalizeStatus s req target comments approverId approver now =
    (Resp.ok,
      saveRequest s
        (finalizedRequest req target comments approverId approver now)) := by
  simp [finalizeStatus, h]

/-- Routing lemma for a cancellation through updateLeaveRequestStatus: any
current status other than `cancelled` passes the state gate, and the call
lands directly in the common tail. -/
theorem updateStatus_routed_cancel (env : Env) (s : State) (id : String)
    (comments : Option String) (approverId : String) (now : Day)
    {req : LeaveRequest} {approver requestUser : User}
    (hfind : findRequest s id = some req)
    (hst : req.status ≠ Status.cancelled)
    (hAppr : findUser s approverId = some approver)
    (hReqU : findUser s req.userId = some requestUser)
    (hAuth : env.isApproverAuthorized approverId req.userId = true) :
    updateLeaveRequestStatus env s id Status.cancelled comments approverId
      now =
    finalizeStatus s req Status.cancelled comments approverId approver
      now := by
  simp [updateLeaveRequestStatus, hfind, hAppr, hReqU, hAuth, hst]

/-! ### Concrete fixtures used by the counterexamples and witnesses. -/

/-- A fixture environment (amounts in half-day units): every pair of dates
spans one business day (2 half-days), no holidays, authorization always
granted. -/
def fxEnv : Env := ⟨fun _ _ => 2, fun _ _ => [], 1, fun _ _ => true⟩

/-- Fixture acting date. -/
def fxNow : Day := ⟨2026, 50⟩

/-- Fixture leave dates. -/
def fxD1 : Day := ⟨2026, 100⟩

/-- Fixture leave dates. -/
def fxD2 : Day := ⟨2026, 101⟩

/-- A single-level workflow covering 0.5 to 2 days (1 to 4 half-days), approver role id r1. -/
def fxWf1 : Workflow :=
  ⟨"W1", "w1", 1, 4, [⟨1, ["r1"], [], false, true⟩], true⟩

/-- A two-level workflow: level 1 role id `emp`, level 2 role id `mgr`. -/
def fxWf2 : Workflow :=
  ⟨"W2", "w2", 1, 4,
    [⟨1, ["emp"], [], false, true⟩, ⟨2, ["mgr"], [], false, true⟩], true⟩

/-- Fixture requester. -/
def fxU1 : User :=
  ⟨"U1", "Em", "Ploy", "e@x", "employee", some "re", none, none, none, none,
    true⟩

/-- Fixture approver whose role id matches fxWf1 level 1. -/
def fxA1 : User :=
  ⟨"A1", "Ap", "Prover", "a@x", "team_lead", some "r1", none, none, none,
    none, true⟩

/-- Fixture requester whose role name `emp` is also fxWf2 level 1's role id
(so level 1 is filtered from `requiredApprovalLevels` at creation). -/
def fxU2 : User :=
  ⟨"U2", "Re", "Q", "u2@x", "emp", some "emp", none, none, none, none, true⟩

/-- Fixture peer approver with role id `emp` (matches fxWf2 level 1). -/
def fxE2 : User :=
  ⟨"E2", "Peer", "P", "e2@x", "worker", some "emp", none, none, none, none,
    true⟩

/-- Fixture manager with role id `mgr` (matches fxWf2 level 2). -/
def fxM2 : User :=
  ⟨"M2", "Man", "A", "m2@x", "manager", some "mgr", none, none, none, none,
    true⟩

/-- Fixture leave type. -/
def fxLt : LeaveType := ⟨"LT", "Casual", true, none, true⟩

/-- Fixture balance row for fxU1 in 2026, nothing used yet. -/
def fxB1 : LeaveBalance := ⟨"B1", "U1", "LT", 2026, 20, 0, 0⟩

/-- Fixture balance row for fxU2 in 2026. -/
def fxB2 : LeaveBalance := ⟨"B2", "U2", "LT", 2026, 20, 0, 0⟩

/-- Creation-shaped metadata for a request under fxWf1. -/
def fxMdA : Metadata :=
  { Metadata.empty with
    requestUserRole := some "employee"
    workflowId := some "W1"
    currentApprovalLevel := some 0
    requiredApprovalLevels := some [1]
    approvalHistory := some [] }

/-- Fixture pending request of fxU1. -/
def fxReqA : LeaveRequest :=
  ⟨"A", "U1", "LT", fxD1, fxD2, ReqType.fullDay, 2, "r", Status.pending,
    none, none, none, some fxMdA⟩

/-- Fixture approved request of fxU1 overlapping fxReqA. -/
def fxReqB : LeaveRequest :=
  ⟨"B", "U1", "LT", fxD2, fxD2, ReqType.fullDay, 2, "r", Status.approved,
    none, none, none, none⟩

/-- Fixture input payload. -/
def fxInp : CreateInput := ⟨"LT", fxD1, fxD2, none, "vac"⟩

/-- Fixture store for the overlap-conflict scenario: pending request A and
an approved overlapping request B of the same user. -/
def fxS1 : State := ⟨[fxReqA, fxReqB], [fxB1], [fxWf1], [fxU1, fxA1], [fxLt]⟩

/-- C1 counterexample: approving request A at the highest required level
hits the overlap conflict with approved request B — the call does return
the 409 overlap error, but the stored status of A is `approved` afterwards
(it was `pending` before the call), so the "status ... exactly as before"
part of the claim is false on the code (the save happens before the
re-check). -/
theorem c1_counterexample :
    (updateLeaveRequestStatus fxEnv fxS1 "A" Status.approved none "A1"
        fxNow).1 = Resp.overlapConflict ["B"] ∧
    (findRequest fxS1 "A").map (fun r => r.status) = some Status.pending ∧
    (findRequest (updateLeaveRequestStatus fxEnv fxS1 "A" Status.approved
        none "A1" fxNow).2 "A").map (fun r => r.status) =
      some Status.approved := by
  decide

/-- C1 (amended): when an approval at the workflow's highest level finds
another approved request of the same user sharing a day, the call fails
with the overlap-conflict error carrying the conflicting requests' ids and
`LeaveBalance.used` is untouched — but the request itself has ALREADY been
persisted with `status=approved` (the status write is not rolled back). -/
theorem c1_theorem (env : Env) (s : State) (id : String)
    (comments : Option String) (approverId : String) (now : Day)
    (req : LeaveRequest) (approver requestUser : User) (wf : Workflow)
    (lvl : Int) (lastL : Level)
    (hfind : findRequest s id = some req)
    (hst : req.status = Status.pending ∨
      req.status = Status.partiallyApproved)
    (hAppr : findUser s approverId = some approver)
    (hReqU : findUser s req.userId = some requestUser)
    (hAuth : env.isApproverAuthorized approverId req.userId = true)
    (hWf : applicableWorkflowFor s req = some wf)
    (hLvl : computeApproverLevel req approver (sortLevels wf.approvalLevels)
      = some lvl)
    (hLast : (sortLevels wf.approvalLevels).getLast? = some lastL)
    (hHi : ¬ lvl < lastL.level)
    (hOv : overlappingApproved s req ≠ []) :
    (updateLeaveRequestStatus env s id Status.approved comments approverId
        now).1 =
      Resp.overlapConflict
        ((overlappingApproved s req).map (fun r => r.id)) ∧
    (updateLeaveRequestStatus env s id Status.approved comments approverId
        now).2.balances = s.balances ∧
    ∃ r', findRequest (updateLeaveRequestStatus env s id Status.approved
        comments approverId now).2 id = some r' ∧
      r'.status = Status.approved := by
  have hroute := updateStatus_routed env s id comments approverId now hfind
    hst hAppr hReqU hAuth hWf
  have hfull := approveWithWorkflow_full s req requestUser approver
    approverId comments now wf hLvl hLast hHi
  have hOv' : overlappingApproved s
      (fullApproveMeta req lvl approver now comments) ≠ [] := hOv
  have hconf := finalizeStatus_conflict s
    (fullApproveMeta req lvl approver now comments) comments approverId
    approver now hOv'
  rw [hroute, hfull, hconf]
  refine ⟨rfl, rfl, ?_⟩
  have hid : req.id = id := findRequest_id hfind
  refine ⟨_, findRequest_saveRequest s _ id hfind ?_, rfl⟩
  exact hid

/-- C1 witness: the amended theorem applied to the fixture scenario. -/
theorem c1_witness :
    (updateLeaveRequestStatus fxEnv fxS1 "A" Status.approved none "A1"
        fxNow).1 =
      Resp.overlapConflict
        ((overlappingApproved fxS1 fxReqA).map (fun r => r.id)) ∧
    (updateLeaveRequestStatus fxEnv fxS1 "A" Status.approved none "A1"
        fxNow).2.balances = fxS1.balances ∧
    ∃ r', findRequest (updateLeaveRequestStatus fxEnv fxS1 "A"
        Status.approved none "A1" fxNow).2 "A" = some r' ∧
      r'.status = Status.approved :=
  c1_theorem fxEnv fxS1 "A" none "A1" fxNow fxReqA fxA1 fxU1 fxWf1 1
    ⟨1, ["r1"], [], false, true⟩ (by decide) (Or.inl (by decide))
    (by decide) (by decide) (by decide) (by decide) (by decide) (by decide)
    (by decide) (by decide)

/-! ### Sorting lemmas: the insertion sorts are permutations and produce
lists sorted by the respective key. -/

theorem insertLevel_perm (x : Level) (l : List Level) :
    (insertLevel x l).Perm (x :: l) := by
  induction l with
  | nil => simp [insertLevel]
  | cons y ys ih =>
    unfold insertLevel
    by_cases h : x.level ≤ y.level
    · rw [if_pos h]
    · rw [if_neg h]
      exact (List.Perm.cons y ih).trans (List.Perm.swap x y ys)

theorem sortLevels_perm (l : List Level) : (sortLevels l).Perm l := by
  induction l with
  | nil => simp [sortLevels]
  | cons x xs ih =>
    unfold sortLevels
    exact (insertLevel_perm x (sortLevels xs)).trans (List.Perm.cons x ih)

theorem mem_sortLevels {a : Level} {l : List Level} :
    a ∈ sortLevels l ↔ a ∈ l := (sortLevels_perm l).mem_iff

theorem insertLevel_sorted (x : Level) (l : List Level)
    (h : l.Pairwise (fun a b => a.level ≤ b.level)) :
    (insertLevel x l).Pairwise (fun a b => a.level ≤ b.level) := by
  induction l with
  | nil => simp [insertLevel]
  | cons y ys ih =>
    unfold insertLevel
    by_cases hxy : x.level ≤ y.level
    · rw [if_pos hxy]
      refine List.Pairwise.cons ?_ h
      intro b hb
      rcases List.mem_cons.mp hb with hbx | hbm
      · subst hbx; exact hxy
      · have := (List.pairwise_cons.mp h).1 b hbm
        omega
    · rw [if_neg hxy]
      have htail := (List.pairwise_cons.mp h).2
      refine List.Pairwise.cons ?_ (ih htail)
      intro b hb
      have hb' := (insertLevel_perm x ys).mem_iff.mp hb
      rcases List.mem_cons.mp hb' with hbx | hbm
      · subst hbx; omega
      · exact (List.pairwise_cons.mp h).1 b hbm

theorem sortLevels_sorted (l : List Level) :
    (sortLevels l).Pairwise (fun a b => a.level ≤ b.level) := by
  induction l with
  | nil => exact List.Pairwise.nil
  | cons x xs ih => exact insertLevel_sorted x (sortLevels xs) ih

/-- On a list sorted by ascending `level`, `find?` returns an element whose
`level` is minimal among all matches. -/
theorem find?_level_min {p : Level → Bool} {x : Level} :
    ∀ {l : List Level}, l.Pairwise (fun a b => a.level ≤ b.level) →
      l.find? p = some x → ∀ y ∈ l, p y = true → x.level ≤ y.level
  | [], _, hf => by simp at hf
  | a :: as, hs, hf => by
    rcases List.pairwise_cons.mp hs with ⟨hhead, htail⟩
    intro y hy hpy
    by_cases hpa : p a = true
    · rw [List.find?_cons_of_pos _ hpa] at hf
      cases hf
      rcases List.mem_cons.mp hy with h | h
      · subst h; exact le_refl _
      · exact hhead y h
    · rw [List.find?_cons_of_neg _ (by simpa using hpa)] at hf
      rcases List.mem_cons.mp hy with h | h
      · subst h; exact absurd hpy hpa
      · exact find?_level_min htail hf y h hpy

/-! ### State lemmas for createLeaveRequest. -/

/-- When the validation prelude succeeds and a workflow is found, the new
request row is persisted no matter how the notification block ends. -/
theorem createLeaveRequest_state (env : Env) (s : State) (userId : String)
    (inp : CreateInput) (newId : String) (now : Day) {ctx : CreateCtx}
    {wf : Workflow}
    (hchecks : createChecks env s userId inp now = Except.ok ctx)
    (hwf : getApprovalWorkflow s ctx.numberOfDays = some wf) :
    (createLeaveRequest env s userId inp newId now).2 =
      { s with requests := s.requests ++
          [mkLeaveRequest newId userId inp ctx.numberOfDays
            (buildMetadata ctx.user wf)] } := by
  unfold createLeaveRequest
  rw [hchecks]
  simp only [hwf]
  split <;> (try split) <;> rfl

/-- Looking up a fresh id after appending the new row returns the new row. -/
theorem findRequest_append (s : State) (x : LeaveRequest) (id : String)
    (hnone : findRequest s id = none) (hx : x.id = id) :
    findRequest { s with requests := s.requests ++ [x] } id = some x := by
  unfold findRequest at *
  rw [List.find?_append, hnone]
  simp [hx]

/-- The stored `requiredApprovalLevels` of one request row. -/
def storedRequiredLevels (s : State) (id : String) : Option (List Int) :=
  ((findRequest s id).bind (fun r => r.metadata)).bind
    (fun m => m.requiredApprovalLevels)

/-- The spec-side formula for the creation-time required levels (spec
section 3 / section 8): the workflow's levels in ascending order with every
level whose `roleIds` contains the requester's role removed, projected to
level numbers. -/
def requiredLevelsSpec (wf : Workflow) (role : String) : List Int :=
  ((sortLevels wf.approvalLevels).filter
    (fun l => !l.roleIds.contains role)).map (fun l => l.level)

/-- With unique level numbers (spec section 3 requires them unique within a
workflow), the creation-time metadata stores exactly the spec formula. -/
theorem buildMetadata_requiredLevels (user : User) (wf : Workflow)
    (hnodup : ((sortLevels wf.approvalLevels).map
      (fun l => l.level)).Nodup) :
    (buildMetadata user wf).requiredApprovalLevels =
      some (requiredLevelsSpec wf user.role) := by
  unfold buildMetadata requiredLevelsSpec
  simp only [Option.some.injEq]
  generalize (sortLevels wf.approvalLevels) = l at *
  induction l with
  | nil => rfl
  | cons x xs ih =>
    simp only [List.map_cons, List.filter_cons, List.nodup_cons] at *
    rw [List.find?_cons_of_pos _ (by simp)]
    have htail : (xs.map (fun l => l.level)).filter (fun lv =>
        match (x :: xs).find? (fun le => decide (le.level = lv)) with
        | some ld => !ld.roleIds.contains user.role
        | none => true) =
        (xs.map (fun l => l.level)).filter (fun lv =>
        match xs.find? (fun le => decide (le.level = lv)) with
        | some ld => !ld.roleIds.contains user.role
        | none => true) := by
      refine List.filter_congr ?_
      intro lv hlv
      have hne : ¬ x.level = lv := by
        intro h
        exact hnodup.1 (h ▸ hlv)
      rw [List.find?_cons_of_neg _ (by simpa using hne)]
    by_cases hx : x.roleIds.contains user.role
    · simp only [hx, Bool.not_true, if_false]
      rw [htail]
      exact ih hnodup.2
    · simp only [Bool.not_eq_true] at hx
      simp only [hx, Bool.not_false, if_true]
      rw [htail, List.map_cons]
      rw [ih hnodup.2]

/-- The non-final approval step when the overlap re-check is clear: record
and save the partially approved row. -/
theorem partStepApprove_success (s : State) (req : LeaveRequest)
    (requestUser approver : User) (approverId : String)
    (comments : Option String) (now : Day) (sorted : List Level) (lvl : Int)
    (hOv : overlappingApproved s req = []) :
    partStepApprove s req requestUser approver approverId comments now
      sorted lvl =
    (Resp.partiallyApprovedAt lvl,
      saveRequest s
        (partSteppedRequest req requestUser approver approverId comments now
          sorted lvl)) := by
  simp [partStepApprove, hOv]

/-- Fixture store for the C2 scenario: fxU2's role is among level 1's
role ids of the two-level workflow fxWf2, so creation filters level 1 out
of the required levels. -/
def fxS4 : State := ⟨[], [fxB2], [fxWf2], [fxU2, fxE2, fxM2], [fxLt]⟩

/-- The store right after fxU2's request "A" has been created in fxS4. -/
def fxS5 : State := (createLeaveRequest fxEnv fxS4 "U2" fxInp "A" fxNow).2

/-- C2 counterexample: at creation `requiredApprovalLevels = [2]` (level 1
filtered out because the requester's role is among its role ids), but the
subsequent level-1 partial approval by a peer overwrites it with the
workflow's full level list `[1, 2]` — so the field is NOT fixed at creation
time. -/
theorem c2_counterexample :
    storedRequiredLevels fxS5 "A" = some [2] ∧
    (updateLeaveRequestStatus fxEnv fxS5 "A" Status.approved none "E2"
        fxNow).1 = Resp.partiallyApprovedAt 1 ∧
    storedRequiredLevels (updateLeaveRequestStatus fxEnv fxS5 "A"
        Status.approved none "E2" fxNow).2 "A" = some [1, 2] := by
  decide

/-- C2 (amended): at creation `metadata.requiredApprovalLevels` is exactly
the applicable workflow's ascending level numbers minus every level whose
`roleIds` contains the requester's role (level numbers assumed unique, as
the spec requires); but a subsequent NON-final approval overwrites the
field with the applicable workflow's FULL ascending level list, so the
creation-time value survives only when no level was filtered out. -/
theorem c2_theorem :
    (∀ (env : Env) (s : State) (userId : String) (inp : CreateInput)
        (newId : String) (now : Day) (ctx : CreateCtx) (wf : Workflow),
      createChecks env s userId inp now = Except.ok ctx →
      getApprovalWorkflow s ctx.numberOfDays = some wf →
      findRequest s newId = none →
      ((sortLevels wf.approvalLevels).map (fun l => l.level)).Nodup →
      storedRequiredLevels (createLeaveRequest env s userId inp newId
          now).2 newId = some (requiredLevelsSpec wf ctx.user.role)) ∧
    (∀ (env : Env) (s : State) (id : String) (comments : Option String)
        (approverId : String) (now : Day) (req : LeaveRequest)
        (approver requestUser : User) (wf : Workflow) (lvl : Int)
        (lastL : Level),
      findRequest s id = some req →
      (req.status = Status.pending ∨
        req.status = Status.partiallyApproved) →
      findUser s approverId = some approver →
      findUser s req.userId = some requestUser →
      env.isApproverAuthorized approverId req.userId = true →
      applicableWorkflowFor s req = some wf →
      computeApproverLevel req approver (sortLevels wf.approvalLevels) =
        some lvl →
      (sortLevels wf.approvalLevels).getLast? = some lastL →
      lvl < lastL.level →
      overlappingApproved s req = [] →
      storedRequiredLevels (updateLeaveRequestStatus env s id
          Status.approved comments approverId now).2 id =
        some ((sortLevels wf.approvalLevels).map (fun l => l.level))) := by
  constructor
  · intro env s userId inp newId now ctx wf hchecks hwf hnone hnodup
    rw [createLeaveRequest_state env s userId inp newId now hchecks hwf]
    unfold storedRequiredLevels
    rw [findRequest_append s _ newId hnone rfl]
    simpa [mkLeaveRequest] using buildMetadata_requiredLevels ctx.user wf
      hnodup
  · intro env s id comments approverId now req approver requestUser wf lvl
      lastL hfind hst hAppr hReqU hAuth hWf hLvl hLast hLo hOv
    rw [updateStatus_routed env s id comments approverId now hfind hst hAppr
      hReqU hAuth hWf]
    rw [approveWithWorkflow_part s req requestUser approver approverId
      comments now wf hLvl hLast hLo]
    rw [partStepApprove_success s req requestUser approver approverId
      comments now _ lvl hOv]
    unfold storedRequiredLevels
    have hid : req.id = id := findRequest_id hfind
    have hfr := findRequest_saveRequest s
      (partSteppedRequest req requestUser approver approverId comments now
        (sortLevels wf.approvalLevels) lvl) id hfind hid
    show (((findRequest (saveRequest s (partSteppedRequest req requestUser
      approver approverId comments now (sortLevels wf.approvalLevels)
      lvl)) id).bind (fun r => r.metadata)).bind
      (fun m => m.requiredApprovalLevels)) = _
    rw [hfr]
    rfl

/-- Fixture metadata of a freshly created request of fxU2 under fxWf2
(level 1 filtered out). -/
def fxMdA4 : Metadata :=
  { Metadata.empty with
    requestUserRole := some "emp"
    workflowId := some "W2"
    currentApprovalLevel := some 0
    requiredApprovalLevels := some [2]
    approvalHistory := some [] }

/-- Fixture pending request of fxU2 shaped as created under fxWf2. -/
def fxReqA4 : LeaveRequest :=
  ⟨"A", "U2", "LT", fxD1, fxD2, ReqType.fullDay, 2, "r", Status.pending,
    none, none, none, some fxMdA4⟩

/-- Fixture store holding fxReqA4. -/
def fxS5x : State :=
  ⟨[fxReqA4], [fxB2], [fxWf2], [fxU2, fxE2, fxM2], [fxLt]⟩

/-- C2 witness: both parts of the amended claim at the fixture scenario. -/
theorem c2_witness :
    storedRequiredLevels (createLeaveRequest fxEnv fxS4 "U2" fxInp "A"
        fxNow).2 "A" = some (requiredLevelsSpec fxWf2 "emp") ∧
    storedRequiredLevels (updateLeaveRequestStatus fxEnv fxS5x "A"
        Status.approved none "E2" fxNow).2 "A" =
      some ((sortLevels fxWf2.approvalLevels).map (fun l => l.level)) :=
  ⟨c2_theorem.1 fxEnv fxS4 "U2" fxInp "A" fxNow ⟨fxU2, fxLt, 2⟩ fxWf2
      rfl (by decide) (by decide) (by decide),
    c2_theorem.2 fxEnv fxS5x "A" none "E2" fxNow fxReqA4 fxE2 fxU2 fxWf2 1
      ⟨2, ["mgr"], [], false, true⟩ (by decide) (Or.inl (by decide))
      (by decide) (by decide) (by decide) (by decide) (by decide)
      (by decide) (by decide) (by decide)⟩

/-- Fixture store with no user carrying role id r1: the first (and only)
approval level of fxWf1 resolves to an empty approver set. -/
def fxS3 : State := ⟨[], [fxB1], [fxWf1], [fxU1], [fxLt]⟩

/-- C4 counterexample: with an empty resolved approver set for the first
required level, createLeaveRequest does report the no-approver error, but
the new request row HAS been persisted (with status pending) — the store is
not unchanged as the claim states. -/
theorem c4_counterexample :
    (createLeaveRequest fxEnv fxS3 "U1" fxInp "A" fxNow).1 =
      Resp.noApprover ∧
    fxS3.requests = [] ∧
    (findRequest (createLeaveRequest fxEnv fxS3 "U1" fxInp "A" fxNow).2
        "A").map (fun r => r.status) = some Status.pending := by
  decide

/-- C4 (amended): when the validation prelude succeeds, a workflow is
found, the required level list is non-empty and the resolved approver set
of the first required level is empty, createLeaveRequest reports the
no-approver error to the caller — but the new request row has ALREADY been
saved: the stored set of leave requests grows by exactly the new row. -/
theorem c4_theorem (env : Env) (s : State) (userId : String)
    (inp : CreateInput) (newId : String) (now : Day) (ctx : CreateCtx)
    (wf : Workflow)
    (hchecks : createChecks env s userId inp now = Except.ok ctx)
    (hwf : getApprovalWorkflow s ctx.numberOfDays = some wf)
    (hne : (buildMetadata ctx.user wf).requiredApprovalLevels ≠ some [])
    (hempty : resolveFirstLevelApprovers
      { s with requests := s.requests ++
          [mkLeaveRequest newId userId inp ctx.numberOfDays
            (buildMetadata ctx.user wf)] }
      (buildMetadata ctx.user wf) ctx.user = []) :
    (createLeaveRequest env s userId inp newId now).1 = Resp.noApprover ∧
    (createLeaveRequest env s userId inp newId now).2.requests =
      s.requests ++ [mkLeaveRequest newId userId inp ctx.numberOfDays
        (buildMetadata ctx.user wf)] := by
  obtain ⟨L, hL⟩ : ∃ L, (buildMetadata ctx.user wf).requiredApprovalLevels =
      some L := ⟨_, rfl⟩
  cases L with
  | nil => exact absurd hL hne
  | cons l0 ls0 =>
    constructor
    · unfold createLeaveRequest
      rw [hchecks]
      simp only [hwf, hL, hempty]
      simp
    · rw [createLeaveRequest_state env s userId inp newId now hchecks hwf]

/-- C4 witness: the amended theorem at the fixture store without approvers. -/
theorem c4_witness :
    (createLeaveRequest fxEnv fxS3 "U1" fxInp "A" fxNow).1 =
      Resp.noApprover ∧
    (createLeaveRequest fxEnv fxS3 "U1" fxInp "A" fxNow).2.requests =
      fxS3.requests ++ [mkLeaveRequest "A" "U1" fxInp 2
        (buildMetadata fxU1 fxWf1)] :=
  c4_theorem fxEnv fxS3 "U1" fxInp "A" fxNow ⟨fxU1, fxLt, 2⟩ fxWf1 rfl
    (by decide) (by decide) (by decide)

/-- Fixture store for a clean single-level approval: pending request A,
workflow fxWf1, approver fxA1, balance fxB1. -/
def fxS0 : State := ⟨[fxReqA], [fxB1], [fxWf1], [fxU1, fxA1], [fxLt]⟩

/-- C3: in the workflow block, "highest required level" is the highest
level number of the applicable workflow's sorted level list (the code's
`highestRequiredLevel`).  If the actor's matched level is not below it (and
the overlap re-check is clear and a current-year balance row exists), the
request ends approved with `isFullyApproved=true` and `used` increased by
exactly `numberOfDays`; if the matched level is below it (and the overlap
check is clear), the request ends partially approved with
`currentApprovalLevel` advanced to the matched level, one history entry
appended, and the balances untouched. -/
theorem c3_theorem (env : Env) (s : State) (id : String)
    (comments : Option String) (approverId : String) (now : Day)
    (req : LeaveRequest) (approver requestUser : User) (wf : Workflow)
    (lvl : Int) (lastL : Level)
    (hfind : findRequest s id = some req)
    (hst : req.status = Status.pending ∨
      req.status = Status.partiallyApproved)
    (hAppr : findUser s approverId = some approver)
    (hReqU : findUser s req.userId = some requestUser)
    (hAuth : env.isApproverAuthorized approverId req.userId = true)
    (hWf : applicableWorkflowFor s req = some wf)
    (hLvl : computeApproverLevel req approver (sortLevels wf.approvalLevels)
      = some lvl)
    (hLast : (sortLevels wf.approvalLevels).getLast? = some lastL) :
    (∀ bal : LeaveBalance, ¬ lvl < lastL.level →
      overlappingApproved s req = [] →
      findBalance s req.userId req.leaveTypeId now.year = some bal →
      (updateLeaveRequestStatus env s id Status.approved comments approverId
          now).1 = Resp.ok ∧
      (∃ r', findRequest (updateLeaveRequestStatus env s id Status.approved
          comments approverId now).2 id = some r' ∧
        r'.status = Status.approved ∧
        r'.metadata.map (fun m => m.isFullyApproved) = some true) ∧
      (updateLeaveRequestStatus env s id Status.approved comments approverId
          now).2.balances = s.balances.map (fun b =>
        if b.id = bal.id then { b with used := bal.used + req.numberOfDays }
        else b)) ∧
    (lvl < lastL.level →
      overlappingApproved s req = [] →
      (updateLeaveRequestStatus env s id Status.approved comments approverId
          now).1 = Resp.partiallyApprovedAt lvl ∧
      (updateLeaveRequestStatus env s id Status.approved comments approverId
          now).2.balances = s.balances ∧
      (∃ r', findRequest (updateLeaveRequestStatus env s id Status.approved
          comments approverId now).2 id = some r' ∧
        r'.status = Status.partiallyApproved ∧
        r'.metadata.bind (fun m => m.currentApprovalLevel) = some lvl ∧
        (r'.metadata.bind (fun m => m.approvalHistory)).map List.length =
          some (((req.metadata.getD Metadata.empty).approvalHistory.getD
            []).length + 1))) := by
  have hroute := updateStatus_routed env s id comments approverId now hfind
    hst hAppr hReqU hAuth hWf
  have hid : req.id = id := findRequest_id hfind
  constructor
  · intro bal hHi hOv hbal
    have hfull := approveWithWorkflow_full s req requestUser approver
      approverId comments now wf hLvl hLast hHi
    have hOv' : overlappingApproved s
        (fullApproveMeta req lvl approver now comments) = [] := hOv
    have hbal' : findBalance s
        (fullApproveMeta req lvl approver now comments).userId
        (fullApproveMeta req lvl approver now comments).leaveTypeId
        now.year = some bal := hbal
    have hsucc := finalizeStatus_success s
      (fullApproveMeta req lvl approver now comments) comments approverId
      approver now hOv' hbal'
    rw [hroute, hfull, hsucc]
    exact ⟨rfl,
      ⟨finalizedRequest (fullApproveMeta req lvl approver now comments)
          Status.approved comments approverId approver now,
        findRequest_saveRequest s _ id hfind hid, rfl, rfl⟩, rfl⟩
  · intro hLo hOv
    have hpart := approveWithWorkflow_part s req requestUser approver
      approverId comments now wf hLvl hLast hLo
    have hsucc := partStepApprove_success s req requestUser approver
      approverId comments now (sortLevels wf.approvalLevels) lvl hOv
    rw [hroute, hpart, hsucc]
    refine ⟨rfl, rfl,
      ⟨partSteppedRequest req requestUser approver approverId comments now
          (sortLevels wf.approvalLevels) lvl,
        findRequest_saveRequest s _ id hfind hid, rfl, rfl, ?_⟩⟩
    simp [partSteppedRequest]

/-- C3 witness: the full-approval half at the single-level fixture and the
partial-approval half at the two-level fixture. -/
theorem c3_witness :
    ((updateLeaveRequestStatus fxEnv fxS0 "A" Status.approved none "A1"
        fxNow).1 = Resp.ok ∧
      (∃ r', findRequest (updateLeaveRequestStatus fxEnv fxS0 "A"
          Status.approved none "A1" fxNow).2 "A" = some r' ∧
        r'.status = Status.approved ∧
        r'.metadata.map (fun m => m.isFullyApproved) = some true) ∧
      (updateLeaveRequestStatus fxEnv fxS0 "A" Status.approved none "A1"
          fxNow).2.balances = fxS0.balances.map (fun b =>
        if b.id = fxB1.id then
          { b with used := fxB1.used + fxReqA.numberOfDays }
        else b)) ∧
    ((updateLeaveRequestStatus fxEnv fxS5x "A" Status.approved none "E2"
        fxNow).1 = Resp.partiallyApprovedAt 1 ∧
      (updateLeaveRequestStatus fxEnv fxS5x "A" Status.approved none "E2"
          fxNow).2.balances = fxS5x.balances ∧
      (∃ r', findRequest (updateLeaveRequestStatus fxEnv fxS5x "A"
          Status.approved none "E2" fxNow).2 "A" = some r' ∧
        r'.status = Status.partiallyApproved ∧
        r'.metadata.bind (fun m => m.currentApprovalLevel) = some 1 ∧
        (r'.metadata.bind (fun m => m.approvalHistory)).map List.length =
          some (((fxReqA4.metadata.getD Metadata.empty).approvalHistory.getD
            []).length + 1))) :=
  ⟨(c3_theorem fxEnv fxS0 "A" none "A1" fxNow fxReqA fxA1 fxU1 fxWf1 1
      ⟨1, ["r1"], [], false, true⟩ (by decide) (Or.inl (by decide))
      (by decide) (by decide) (by decide) (by decide) (by decide)
      (by decide)).1 fxB1 (by decide) (by decide) (by decide),
    (c3_theorem fxEnv fxS5x "A" none "E2" fxNow fxReqA4 fxE2 fxU2 fxWf2 1
      ⟨2, ["mgr"], [], false, true⟩ (by decide) (Or.inl (by decide))
      (by decide) (by decide) (by decide) (by decide) (by decide)
      (by decide)).2 (by decide) (by decide)⟩

/-- C5: (1) for a partially approved request the actor's role is checked
only against the single level `currentApprovalLevel + 1`; (2) for a pending
request the actor is assigned the first matching level in ascending level
order (it is a minimal matching level); (3) when no level matches, the
approval fails with the 403 forbidden response and the state is unchanged. -/
theorem c5_theorem :
    (∀ (req : LeaveRequest) (approver : User) (sorted : List Level)
        (md : Metadata) (lvl : Int),
      req.status = Status.partiallyApproved → req.metadata = some md →
      computeApproverLevel req approver sorted = some lvl →
      ∃ cur, md.currentApprovalLevel = some cur ∧ lvl = cur + 1 ∧
        ∃ ld, sorted.find? (fun l => decide (l.level = cur + 1)) = some ld ∧
          levelMatches approver ld = true) ∧
    (∀ (ls : List Level) (req : LeaveRequest) (approver : User) (lvl : Int),
      req.status = Status.pending →
      computeApproverLevel req approver (sortLevels ls) = some lvl →
      ∃ ld ∈ ls, ld.level = lvl ∧ levelMatches approver ld = true ∧
        ∀ ld' ∈ ls, levelMatches approver ld' = true →
          lvl ≤ ld'.level) ∧
    (∀ (env : Env) (s : State) (id : String) (comments : Option String)
        (approverId : String) (now : Day) (req : LeaveRequest)
        (approver requestUser : User) (wf : Workflow),
      findRequest s id = some req →
      (req.status = Status.pending ∨
        req.status = Status.partiallyApproved) →
      findUser s approverId = some approver →
      findUser s req.userId = some requestUser →
      env.isApproverAuthorized approverId req.userId = true →
      applicableWorkflowFor s req = some wf →
      computeApproverLevel req approver (sortLevels wf.approvalLevels) =
        none →
      updateLeaveRequestStatus env s id Status.approved comments approverId
        now = (Resp.forbiddenLevel, s)) := by
  refine ⟨?_, ?_, ?_⟩
  · intro req approver sorted md lvl hst hmd hlvl
    cases hcur : md.currentApprovalLevel with
    | none => simp [computeApproverLevel, hst, hmd, hcur] at hlvl
    | some cur =>
      cases hfd : sorted.find? (fun l => decide (l.level = cur + 1)) with
      | none => simp [computeApproverLevel, hst, hmd, hcur, hfd] at hlvl
      | some ld =>
        by_cases hm : levelMatches approver ld = true
        · refine ⟨cur, rfl, ?_, ld, hfd, hm⟩
          simp [computeApproverLevel, hst, hmd, hcur, hfd, hm] at hlvl
          omega
        · simp [computeApproverLevel, hst, hmd, hcur, hfd, hm] at hlvl
  · intro ls req approver lvl hst hlvl
    simp only [computeApproverLevel, hst] at hlvl
    cases hfd : (sortLevels ls).find? (levelMatches approver) with
    | none => rw [hfd] at hlvl; simp at hlvl
    | some ld0 =>
      rw [hfd] at hlvl
      simp only [Option.map] at hlvl
      cases hlvl
      refine ⟨ld0, mem_sortLevels.mp (List.mem_of_find?_eq_some hfd), rfl,
        List.find?_some hfd, ?_⟩
      intro ld' hld' hm'
      exact find?_level_min (sortLevels_sorted ls) hfd ld'
        (mem_sortLevels.mpr hld') hm'
  · intro env s id comments approverId now req approver requestUser wf
      hfind hst hAppr hReqU hAuth hWf hnone
    rw [updateStatus_routed env s id comments approverId now hfind hst hAppr
      hReqU hAuth hWf]
    simp [approveWithWorkflow, hnone]

/-- Fixture metadata of a partially approved request at level 1 of fxWf2. -/
def fxMdP : Metadata :=
  { Metadata.empty with
    requestUserRole := some "emp"
    workflowId := some "W2"
    currentApprovalLevel := some 1
    requiredApprovalLevels := some [1, 2]
    approvalHistory := some [] }

/-- Fixture partially approved request of fxU2 under fxWf2. -/
def fxReqP : LeaveRequest :=
  ⟨"A", "U2", "LT", fxD1, fxD2, ReqType.fullDay, 2, "r",
    Status.partiallyApproved, none, none, none, some fxMdP⟩

/-- Fixture store holding fxReqA4 plus a user (fxU1) whose role matches no
level of fxWf2. -/
def fxS5y : State :=
  ⟨[fxReqA4], [fxB2], [fxWf2], [fxU1, fxU2, fxE2, fxM2], [fxLt]⟩

/-- C5 witness: the three parts of the claim at concrete fixtures. -/
theorem c5_witness :
    (∃ cur, fxMdP.currentApprovalLevel = some cur ∧ (2 : Int) = cur + 1 ∧
      ∃ ld, (sortLevels fxWf2.approvalLevels).find?
          (fun l => decide (l.level = cur + 1)) = some ld ∧
        levelMatches fxM2 ld = true) ∧
    (∃ ld ∈ fxWf1.approvalLevels, ld.level = (1 : Int) ∧
      levelMatches fxA1 ld = true ∧
      ∀ ld' ∈ fxWf1.approvalLevels, levelMatches fxA1 ld' = true →
        (1 : Int) ≤ ld'.level) ∧
    updateLeaveRequestStatus fxEnv fxS5y "A" Status.approved none "U1"
      fxNow = (Resp.forbiddenLevel, fxS5y) :=
  ⟨c5_theorem.1 fxReqP fxM2 (sortLevels fxWf2.approvalLevels) fxMdP 2
      (by decide) (by decide) (by decide),
    c5_theorem.2.1 fxWf1.approvalLevels fxReqA fxA1 1 (by decide)
      (by decide),
    c5_theorem.2.2 fxEnv fxS5y "A" none "U1" fxNow fxReqA4 fxU1 fxU2 fxWf2
      (by decide) (Or.inl (by decide)) (by decide) (by decide) (by decide)
      (by decide) (by decide)⟩

/-- C9: updateLeaveRequestStatus with target `cancelled` is accepted for a
request in ANY current status other than `cancelled` itself (the
pending/partially_approved gate is bypassed by the
`normalizedStatus !== CANCELLED` disjunct), and on this path the
balances are never touched — unlike cancelLeaveRequest, cancelling an
approved request this way leaves `used` unchanged. -/
theorem c9_theorem (env : Env) (s : State) (id : String)
    (comments : Option String) (approverId : String) (now : Day)
    (req : LeaveRequest) (approver requestUser : User)
    (hfind : findRequest s id = some req)
    (hst : req.status ≠ Status.cancelled)
    (hAppr : findUser s approverId = some approver)
    (hReqU : findUser s req.userId = some requestUser)
    (hAuth : env.isApproverAuthorized approverId req.userId = true) :
    (updateLeaveRequestStatus env s id Status.cancelled comments approverId
        now).1 = Resp.ok ∧
    (updateLeaveRequestStatus env s id Status.cancelled comments approverId
        now).2.balances = s.balances ∧
    ∃ r', findRequest (updateLeaveRequestStatus env s id Status.cancelled
        comments approverId now).2 id = some r' ∧
      r'.status = Status.cancelled := by
  rw [updateStatus_routed_cancel env s id comments approverId now hfind hst
    hAppr hReqU hAuth]
  rw [finalizeStatus_nonApproved s req Status.cancelled comments approverId
    approver now (by decide)]
  have hid : req.id = id := findRequest_id hfind
  exact ⟨rfl, rfl,
    ⟨finalizedRequest req Status.cancelled comments approverId approver now,
      findRequest_saveRequest s _ id hfind hid, rfl⟩⟩

/-- Fixture approved request of fxU1 (no workflow metadata). -/
def fxReqC : LeaveRequest :=
  ⟨"C", "U1", "LT", fxD1, fxD2, ReqType.fullDay, 2, "r", Status.approved,
    none, none, none, none⟩

/-- Fixture store holding the approved request fxReqC. -/
def fxS6 : State := ⟨[fxReqC], [fxB1], [fxWf1], [fxU1, fxA1], [fxLt]⟩

/-- C9 witness: cancelling the APPROVED fixture request through
updateLeaveRequestStatus succeeds and leaves the balances untouched. -/
theorem c9_witness :
    (updateLeaveRequestStatus fxEnv fxS6 "C" Status.cancelled none "A1"
        fxNow).1 = Resp.ok ∧
    (updateLeaveRequestStatus fxEnv fxS6 "C" Status.cancelled none "A1"
        fxNow).2.balances = fxS6.balances ∧
    ∃ r', findRequest (updateLeaveRequestStatus fxEnv fxS6 "C"
        Status.cancelled none "A1" fxNow).2 "C" = some r' ∧
      r'.status = Status.cancelled :=
  c9_theorem fxEnv fxS6 "C" none "A1" fxNow fxReqC fxA1 fxU1 (by decide)
    (by decide) (by decide) (by decide) (by decide)

/-- After `removeRequest` the removed id can no longer be found. -/
theorem findRequest_removeRequest (s : State) (id : String) :
    findRequest (removeRequest s id) id = none := by
  unfold findRequest removeRequest
  rw [List.find?_eq_none]
  intro a ha
  have h := (List.mem_filter.mp ha).2
  simp only [Bool.not_eq_true', decide_eq_false_iff_not] at h
  simpa using h

/-- C8: for a `pending_deletion` request whose `originalStatus` is
`approved`, deletion-approval decrements `used` by `numberOfDays` clamped
at 0 on the balance row of the request's start-date year and removes the
request row; deletion-rejection restores `status=approved` and leaves the
balances untouched. -/
theorem c8_theorem (env : Env) (s : State) (id : String)
    (comments : Option String) (approverId : String) (now : Day)
    (req : LeaveRequest) (approver requestUser : User) (bal : LeaveBalance)
    (hfind : findRequest s id = some req)
    (hst : req.status = Status.pendingDeletion)
    (horig : req.metadata.bind (fun m => m.originalStatus) =
      some Status.approved)
    (hAppr : findUser s approverId = some approver)
    (hReqU : findUser s req.userId = some requestUser)
    (hauth : requestUser.managerId = some approverId ∨
      approver.role = superAdminRole ∨ approver.role = hrRole)
    (hbal : findBalance s req.userId req.leaveTypeId req.startDate.year =
      some bal) :
    (approveDeleteLeaveRequest env s id comments approverId).1 = Resp.ok ∧
    (approveDeleteLeaveRequest env s id comments approverId).2.balances =
      s.balances.map (fun b =>
        if b.id = bal.id then
          { b with used := max 0 (bal.used - req.numberOfDays) }
        else b) ∧
    findRequest (approveDeleteLeaveRequest env s id comments
      approverId).2 id = none ∧
    (rejectDeleteLeaveRequest env s id comments approverId now).1 =
      Resp.ok ∧
    (rejectDeleteLeaveRequest env s id comments approverId now).2.balances =
      s.balances ∧
    ∃ r', findRequest (rejectDeleteLeaveRequest env s id comments approverId
        now).2 id = some r' ∧ r'.status = Status.approved := by
  have hid : req.id = id := findRequest_id hfind
  have happrove : approveDeleteLeaveRequest env s id comments approverId =
      (Resp.ok, removeRequest
        (updateUsed s bal.id (max 0 (bal.used - req.numberOfDays))) id) := by
    simp [approveDeleteLeaveRequest, hfind, hst, hAppr, hReqU, hauth, horig,
      hbal]
  have hrest : ((req.metadata.bind (fun m => m.originalStatus)).getD
      Status.approved) = Status.approved := by rw [horig]; rfl
  have hreject : rejectDeleteLeaveRequest env s id comments approverId now =
      (Resp.ok, saveRequest s
        { req with
          status := ((req.metadata.bind
            (fun m => m.originalStatus)).getD Status.approved)
          metadata := some
            { (req.metadata.getD Metadata.empty) with
              deletionRejectedBy := some approverId
              deletionRejectedAt := some now
              deletionRejectionComments := comments } }) := by
    simp [rejectDeleteLeaveRequest, hfind, hst, hAppr, hReqU, hauth]
  refine ⟨?_, ?_, ?_, ?_, ?_, ?_⟩
  · rw [happrove]
  · rw [happrove]; rfl
  · rw [happrove]; exact findRequest_removeRequest _ id
  · rw [hreject]
  · rw [hreject]; rfl
  · rw [hreject]
    refine ⟨_, findRequest_saveRequest s _ id hfind hid, ?_⟩
    exact hrest

/-- Fixture metadata of a pending-deletion request whose original status
was `approved`. -/
def fxMdD : Metadata :=
  { Metadata.empty with originalStatus := some Status.approved }

/-- Fixture pending-deletion request of fxU1. -/
def fxReqD : LeaveRequest :=
  ⟨"D", "U1", "LT", fxD1, fxD2, ReqType.fullDay, 2, "r",
    Status.pendingDeletion, none, none, none, some fxMdD⟩

/-- Fixture HR user (authorized on the deletion-approval paths). -/
def fxHr : User :=
  ⟨"H1", "H", "R", "h@x", "hr", none, none, none, none, none, true⟩

/-- Fixture store for the deletion-approval scenario. -/
def fxS8 : State := ⟨[fxReqD], [fxB1], [fxWf1], [fxU1, fxHr], [fxLt]⟩

/-- C8 witness: the theorem at the pending-deletion fixture. -/
theorem c8_witness :
    (approveDeleteLeaveRequest fxEnv fxS8 "D" none "H1").1 = Resp.ok ∧
    (approveDeleteLeaveRequest fxEnv fxS8 "D" none "H1").2.balances =
      fxS8.balances.map (fun b =>
        if b.id = fxB1.id then
          { b with used := max 0 (fxB1.used - fxReqD.numberOfDays) }
        else b) ∧
    findRequest (approveDeleteLeaveRequest fxEnv fxS8 "D" none "H1").2 "D" =
      none ∧
    (rejectDeleteLeaveRequest fxEnv fxS8 "D" none "H1" fxNow).1 = Resp.ok ∧
    (rejectDeleteLeaveRequest fxEnv fxS8 "D" none "H1" fxNow).2.balances =
      fxS8.balances ∧
    ∃ r', findRequest (rejectDeleteLeaveRequest fxEnv fxS8 "D" none "H1"
        fxNow).2 "D" = some r' ∧ r'.status = Status.approved :=
  c8_theorem fxEnv fxS8 "D" none "H1" fxNow fxReqD fxHr fxU1 fxB1
    (by decide) (by decide) (by decide) (by decide) (by decide)
    (Or.inr (Or.inr (by decide))) (by decide)

/-! ### Balance-effect characterization of each operation. -/

/-- The common tail either leaves the balances alone or adds
`numberOfDays` to a current-year row, and only for target `approved`. -/
theorem finalizeStatus_balances (s : State) (req : LeaveRequest)
    (target : Status) (comments : Option String) (approverId : String)
    (approver : User) (now : Day) :
    (finalizeStatus s req target comments approverId approver
        now).2.balances = s.balances ∨
    (target = Status.approved ∧ ∃ bal,
      findBalance s req.userId req.leaveTypeId now.year = some bal ∧
      (finalizeStatus s req target comments approverId approver
          now).2.balances =
        (updateUsed s bal.id (bal.used + req.numberOfDays)).balances) := by
  by_cases ht : target = Status.approved
  · subst ht
    by_cases hov : overlappingApproved s req = []
    · cases hb : findBalance s req.userId req.leaveTypeId now.year with
      | some bal =>
        rw [finalizeStatus_success s req comments approverId approver now
          hov hb]
        exact Or.inr ⟨rfl, bal, rfl, rfl⟩
      | none =>
        rw [finalizeStatus_noBalance s req comments approverId approver now
          hov hb]
        exact Or.inl rfl
    · rw [finalizeStatus_conflict s req comments approverId approver now
        hov]
      exact Or.inl rfl
  · rw [finalizeStatus_nonApproved s req target comments approverId approver
      now ht]
    exact Or.inl rfl

/-- The partial-approval step never touches the balances. -/
theorem partStepApprove_balances (s : State) (req : LeaveRequest)
    (requestUser approver : User) (approverId : String)
    (comments : Option String) (now : Day) (sorted : List Level)
    (lvl : Int) :
    (partStepApprove s req requestUser approver approverId comments now
        sorted lvl).2.balances = s.balances := by
  simp only [partStepApprove]
  split <;> rfl

/-- The workflow block either leaves the balances alone or adds
`numberOfDays` to a current-year row of the request's user. -/
theorem approveWithWorkflow_balances (s : State) (req : LeaveRequest)
    (requestUser approver : User) (approverId : String)
    (comments : Option String) (now : Day) (wf : Workflow) :
    (approveWithWorkflow s req requestUser approver approverId comments now
        wf).2.balances = s.balances ∨
    (∃ bal, findBalance s req.userId req.leaveTypeId now.year = some bal ∧
      (approveWithWorkflow s req requestUser approver approverId comments
          now wf).2.balances =
        (updateUsed s bal.id (bal.used + req.numberOfDays)).balances) := by
  simp only [approveWithWorkflow]
  split
  · exact Or.inl rfl
  · split
    · exact Or.inl rfl
    · split
      · exact Or.inl (partStepApprove_balances ..)
      · rcases finalizeStatus_balances s
          (fullApproveMeta req _ approver now comments) Status.approved
          comments approverId approver now with h | ⟨_, bal, hbal, heq⟩
        · exact Or.inl h
        · exact Or.inr ⟨bal, hbal, heq⟩

/-- updateLeaveRequestStatus either leaves the balances alone or — only for
target `approved` — adds the acted-on request's `numberOfDays` to a
current-year balance row of its user. -/
theorem updateStatus_balances (env : Env) (s : State) (id : String)
    (target : Status) (comments : Option String) (approverId : String)
    (now : Day) :
    (updateLeaveRequestStatus env s id target comments approverId
        now).2.balances = s.balances ∨
    (target = Status.approved ∧ ∃ req bal,
      findRequest s id = some req ∧
      findBalance s req.userId req.leaveTypeId now.year = some bal ∧
      (updateLeaveRequestStatus env s id target comments approverId
          now).2.balances =
        (updateUsed s bal.id (bal.used + req.numberOfDays)).balances) := by
  unfold updateLeaveRequestStatus
  split
  · exact Or.inl rfl
  case _ req hfind =>
    split
    · exact Or.inl rfl
    · split
      · exact Or.inl rfl
      · split
        · exact Or.inl rfl
        case _ approver hAppr =>
          split
          · exact Or.inl rfl
          case _ requestUser hReqU =>
            split
            · exact Or.inl rfl
            · split
              · split
                case _ wf hWf =>
                  rcases approveWithWorkflow_balances s req requestUser
                    approver approverId comments now wf with h |
                      ⟨bal, hbal, heq⟩
                  · exact Or.inl h
                  · exact Or.inr ⟨by assumption, req, bal, hfind, hbal, heq⟩
                case _ hWf =>
                  rcases finalizeStatus_balances s req target comments
                    approverId approver now with h | ⟨ht, bal, hbal, heq⟩
                  · exact Or.inl h
                  · exact Or.inr ⟨ht, req, bal, hfind, hbal, heq⟩
              · rcases finalizeStatus_balances s req target comments
                  approverId approver now with h | ⟨ht, bal, hbal, heq⟩
                · exact Or.inl h
                · exact Or.inr ⟨ht, req, bal, hfind, hbal, heq⟩

/-- cancelLeaveRequest either leaves the balances alone or — only for an
approved request — subtracts `numberOfDays` WITHOUT clamping from a
current-year row of the request's user. -/
theorem cancel_balances (env : Env) (s : State) (id userId : String)
    (now : Day) :
    (cancelLeaveRequest env s id userId now).2.balances = s.balances ∨
    ∃ req bal, findRequest s id = some req ∧
      req.status = Status.approved ∧
      findBalance s req.userId req.leaveTypeId now.year = some bal ∧
      (cancelLeaveRequest env s id userId now).2.balances =
        (updateUsed s bal.id (bal.used - req.numberOfDays)).balances := by
  simp only [cancelLeaveRequest]
  split
  · exact Or.inl rfl
  case _ req hfind =>
    split
    · exact Or.inl rfl
    · split
      · exact Or.inl rfl
      · split
        · exact Or.inl rfl
        case _ s1 heq =>
          by_cases hst : req.status = Status.approved
          · rw [if_pos hst] at heq
            by_cases hpast : Day.lt req.startDate now = true
            · rw [if_pos hpast] at heq; cases heq
            · rw [if_neg hpast] at heq
              cases hb : findBalance s req.userId req.leaveTypeId
                  now.year with
              | some bal =>
                simp only [hb] at heq
                cases heq
                exact Or.inr ⟨req, bal, hfind, hst, hb, rfl⟩
              | none =>
                simp only [hb] at heq
                cases heq
                exact Or.inl rfl
          · rw [if_neg hst] at heq
            cases heq
            exact Or.inl rfl

/-- approveDeleteLeaveRequest either leaves the balances alone or subtracts
`numberOfDays`, clamped at 0, from a start-date-year row. -/
theorem approveDel_balances (env : Env) (s : State) (id : String)
    (comments : Option String) (approverId : String) :
    (approveDeleteLeaveRequest env s id comments approverId).2.balances =
      s.balances ∨
    ∃ req bal, findRequest s id = some req ∧
      (req.metadata.bind (fun m => m.originalStatus) =
          some Status.approved ∨
        req.metadata.bind (fun m => m.originalStatus) =
          some Status.partiallyApproved) ∧
      findBalance s req.userId req.leaveTypeId req.startDate.year =
        some bal ∧
      (approveDeleteLeaveRequest env s id comments approverId).2.balances =
        (updateUsed s bal.id (max 0 (bal.used - req.numberOfDays))).balances
    := by
  simp only [approveDeleteLeaveRequest]
  split
  · exact Or.inl rfl
  case _ req hfind =>
    split
    · exact Or.inl rfl
    · split
      · exact Or.inl rfl
      · split
        · exact Or.inl rfl
        · split
          · exact Or.inl rfl
          · by_cases ho : (req.metadata.bind (fun m => m.originalStatus) =
                some Status.approved ∨
                req.metadata.bind (fun m => m.originalStatus) =
                some Status.partiallyApproved)
            · rw [if_pos ho]
              cases hb : findBalance s req.userId req.leaveTypeId
                  req.startDate.year with
              | some bal =>
                simp only [hb]
                exact Or.inr ⟨req, bal, hfind, ho, hb, rfl⟩
              | none =>
                simp only [hb]
                exact Or.inl rfl
            · rw [if_neg ho]
              exact Or.inl rfl

/-- deleteLeaveRequest either leaves the balances alone or, when the
deleted request is approved or partially approved, subtracts
`numberOfDays`, clamped at 0, from a start-date-year row. -/
theorem del_balances (env : Env) (s : State) (id userId userRole : String)
    (now : Day) :
    (deleteLeaveRequest env s id userId userRole now).2.balances =
      s.balances ∨
    ∃ req bal, findRequest s id = some req ∧
      (req.status = Status.approved ∨
        req.status = Status.partiallyApproved) ∧
      findBalance s req.userId req.leaveTypeId req.startDate.year =
        some bal ∧
      (deleteLeaveRequest env s id userId userRole now).2.balances =
        (updateUsed s bal.id (max 0 (bal.used - req.numberOfDays))).balances
    := by
  simp only [deleteLeaveRequest]
  split
  · exact Or.inl rfl
  case _ req hfind =>
    split
    · exact Or.inl rfl
    · split
      · exact Or.inl rfl
      · by_cases hst : (req.status = Status.approved ∨
            req.status = Status.partiallyApproved)
        · rw [if_pos hst]
          cases hb : findBalance s req.userId req.leaveTypeId
              req.startDate.year with
          | some bal =>
            simp only [hb]
            exact Or.inr ⟨req, bal, hfind, hst, hb, rfl⟩
          | none =>
            simp only [hb]
            exact Or.inl rfl
        · rw [if_neg hst]
          exact Or.inl rfl

/-- createLeaveRequest never touches the balances. -/
theorem create_balances (env : Env) (s : State) (userId : String)
    (inp : CreateInput) (newId : String) (now : Day) :
    (createLeaveRequest env s userId inp newId now).2.balances =
      s.balances := by
  simp only [createLeaveRequest]
  split
  · rfl
  · split
    · rfl
    · split <;> (try split) <;> rfl

/-- rejectDeleteLeaveRequest never touches the balances. -/
theorem rejectDel_balances (env : Env) (s : State) (id : String)
    (comments : Option String) (approverId : String) (now : Day) :
    (rejectDeleteLeaveRequest env s id comments approverId
      now).2.balances = s.balances := by
  simp only [rejectDeleteLeaveRequest]
  split <;> (try split) <;> (try split) <;> (try split) <;> (try split) <;>
    rfl

/-- The ways one engine operation may change a `used` value, relative to
the pre-state: an increment by the acted-on request's `numberOfDays` on a
final approval; an UNCLAMPED decrement on cancellation of an approved
request; a decrement clamped at 0 on the two deletion paths, which fire
only for a request that is (originally) approved or partially
approved. -/
def UsedDelta (s : State) (op : Op) (v : ℤ) : Prop :=
  (∃ id target comments approverId now req bal,
    op = Op.updateStatus id target comments approverId now ∧
    target = Status.approved ∧
    findRequest s id = some req ∧
    findBalance s req.userId req.leaveTypeId now.year = some bal ∧
    v = bal.used + req.numberOfDays) ∨
  (∃ id userId now req bal,
    op = Op.cancel id userId now ∧
    findRequest s id = some req ∧ req.status = Status.approved ∧
    findBalance s req.userId req.leaveTypeId now.year = some bal ∧
    v = bal.used - req.numberOfDays) ∨
  (∃ id comments approverId req bal,
    op = Op.approveDel id comments approverId ∧
    findRequest s id = some req ∧
    (req.metadata.bind (fun m => m.originalStatus) =
        some Status.approved ∨
      req.metadata.bind (fun m => m.originalStatus) =
        some Status.partiallyApproved) ∧
    findBalance s req.userId req.leaveTypeId req.startDate.year =
      some bal ∧
    v = max 0 (bal.used - req.numberOfDays)) ∨
  (∃ id userId userRole now req bal,
    op = Op.del id userId userRole now ∧
    findRequest s id = some req ∧
    (req.status = Status.approved ∨
      req.status = Status.partiallyApproved) ∧
    findBalance s req.userId req.leaveTypeId req.startDate.year =
      some bal ∧
    v = max 0 (bal.used - req.numberOfDays))

/-- C6 (amended): across all engine operations, every post-state balance
row stems from a pre-state row with all non-`used` fields unchanged, and
its `used` is either unchanged or one of the `UsedDelta` changes: an
increment by `numberOfDays` only on a status update to `approved` (final
approval), a decrement only on cancellation or the deletion paths — but
the cancellation decrement is NOT clamped at 0; only the deletion-path
decrements are. -/
theorem c6_theorem (env : Env) (s : State) (op : Op) :
    ∀ b' ∈ (step env s op).2.balances, ∃ b ∈ s.balances,
      b'.id = b.id ∧ b'.userId = b.userId ∧
      b'.leaveTypeId = b.leaveTypeId ∧ b'.year = b.year ∧
      b'.balance = b.balance ∧ b'.carryForward = b.carryForward ∧
      (b'.used = b.used ∨ UsedDelta s op b'.used) := by
  intro b' hb'
  cases op with
  | updateStatus id target comments approverId now =>
    simp only [step] at hb'
    rcases updateStatus_balances env s id target comments approverId now
      with hEq | ⟨ht, req, bal, hfind, hbal, hEq⟩
    · rw [hEq] at hb'
      exact ⟨b', hb', rfl, rfl, rfl, rfl, rfl, rfl, Or.inl rfl⟩
    · rw [hEq] at hb'
      obtain ⟨b, hbmem, h1, h2, h3, h4, h5, h6, hused⟩ := mem_updateUsed hb'
      refine ⟨b, hbmem, h1, h2, h3, h4, h5, h6, ?_⟩
      rcases hused with h | ⟨hv, _⟩
      · exact Or.inl h
      · exact Or.inr (Or.inl ⟨id, target, comments, approverId, now, req,
          bal, rfl, ht, hfind, hbal, hv⟩)
  | cancel id userId now =>
    simp only [step] at hb'
    rcases cancel_balances env s id userId now with hEq |
      ⟨req, bal, hfind, hst, hbal, hEq⟩
    · rw [hEq] at hb'
      exact ⟨b', hb', rfl, rfl, rfl, rfl, rfl, rfl, Or.inl rfl⟩
    · rw [hEq] at hb'
      obtain ⟨b, hbmem, h1, h2, h3, h4, h5, h6, hused⟩ := mem_updateUsed hb'
      refine ⟨b, hbmem, h1, h2, h3, h4, h5, h6, ?_⟩
      rcases hused with h | ⟨hv, _⟩
      · exact Or.inl h
      · exact Or.inr (Or.inr (Or.inl ⟨id, userId, now, req, bal, rfl,
          hfind, hst, hbal, hv⟩))
  | rejectDel id comments approverId now =>
    simp only [step] at hb'
    rw [rejectDel_balances env s id comments approverId now] at hb'
    exact ⟨b', hb', rfl, rfl, rfl, rfl, rfl, rfl, Or.inl rfl⟩
  | approveDel id comments approverId =>
    simp only [step] at hb'
    rcases approveDel_balances env s id comments approverId with hEq |
      ⟨req, bal, hfind, ho, hbal, hEq⟩
    · rw [hEq] at hb'
      exact ⟨b', hb', rfl, rfl, rfl, rfl, rfl, rfl, Or.inl rfl⟩
    · rw [hEq] at hb'
      obtain ⟨b, hbmem, h1, h2, h3, h4, h5, h6, hused⟩ := mem_updateUsed hb'
      refine ⟨b, hbmem, h1, h2, h3, h4, h5, h6, ?_⟩
      rcases hused with h | ⟨hv, _⟩
      · exact Or.inl h
      · exact Or.inr (Or.inr (Or.inr (Or.inl ⟨id, comments, approverId,
          req, bal, rfl, hfind, ho, hbal, hv⟩)))
  | del id userId userRole now =>
    simp only [step] at hb'
    rcases del_balances env s id userId userRole now with hEq |
      ⟨req, bal, hfind, hst, hbal, hEq⟩
    · rw [hEq] at hb'
      exact ⟨b', hb', rfl, rfl, rfl, rfl, rfl, rfl, Or.inl rfl⟩
    · rw [hEq] at hb'
      obtain ⟨b, hbmem, h1, h2, h3, h4, h5, h6, hused⟩ := mem_updateUsed hb'
      refine ⟨b, hbmem, h1, h2, h3, h4, h5, h6, ?_⟩
      rcases hused with h | ⟨hv, _⟩
      · exact Or.inl h
      · exact Or.inr (Or.inr (Or.inr (Or.inr ⟨id, userId, userRole, now,
          req, bal, rfl, hfind, hst, hbal, hv⟩)))
  | create userId inp newId now =>
    simp only [step] at hb'
    rw [create_balances env s userId inp newId now] at hb'
    exact ⟨b', hb', rfl, rfl, rfl, rfl, rfl, rfl, Or.inl rfl⟩
  | createWf wf =>
    simp only [step] at hb'
    have : (match createApprovalWorkflow s.workflows wf with
        | Except.ok ws => (Resp.ok, { s with workflows := ws })
        | Except.error _ => (Resp.validationError, s)).2.balances =
        s.balances := by
      split <;> rfl
    rw [this] at hb'
    exact ⟨b', hb', rfl, rfl, rfl, rfl, rfl, rfl, Or.inl rfl⟩
  | updateWf wid p =>
    simp only [step] at hb'
    have : (match updateApprovalWorkflow s.workflows wid p with
        | Except.ok ws => (Resp.ok, { s with workflows := ws })
        | Except.error _ => (Resp.validationError, s)).2.balances =
        s.balances := by
      split <;> rfl
    rw [this] at hb'
    exact ⟨b', hb', rfl, rfl, rfl, rfl, rfl, rfl, Or.inl rfl⟩

/-- C6 counterexample: cancelling the approved fixture request (2 half-day
units) with `used = 0` drives `used` to −2: the cancellation decrement is
NOT clamped at 0, so `used` can become negative. -/
theorem c6_counterexample :
    (cancelLeaveRequest fxEnv fxS6 "C" "U1" fxNow).1 = Resp.ok ∧
    (cancelLeaveRequest fxEnv fxS6 "C" "U1" fxNow).2.balances =
      [⟨"B1", "U1", "LT", 2026, 20, -2, 0⟩] ∧
    (-2 : ℤ) < 0 := by
  decide

/-- The negative balance row produced by the C6 counterexample. -/
def fxNegBal : LeaveBalance := ⟨"B1", "U1", "LT", 2026, 20, -2, 0⟩

/-- C6 witness: the characterization applied to the cancellation that
produces the negative `used`. -/
theorem c6_witness :
    ∃ b ∈ fxS6.balances, fxNegBal.id = b.id ∧
      fxNegBal.userId = b.userId ∧ fxNegBal.leaveTypeId = b.leaveTypeId ∧
      fxNegBal.year = b.year ∧ fxNegBal.balance = b.balance ∧
      fxNegBal.carryForward = b.carryForward ∧
      (fxNegBal.used = b.used ∨
        UsedDelta fxS6 (Op.cancel "C" "U1" fxNow) fxNegBal.used) :=
  c6_theorem fxEnv fxS6 (Op.cancel "C" "U1" fxNow) fxNegBal (by decide)

/-- Two balance rows agreeing on every field are equal. -/
theorem LeaveBalance.eq_of_fields {b' b : LeaveBalance}
    (h1 : b'.id = b.id) (h2 : b'.userId = b.userId)
    (h3 : b'.leaveTypeId = b.leaveTypeId) (h4 : b'.year = b.year)
    (h5 : b'.balance = b.balance) (h6 : b'.carryForward = b.carryForward)
    (h7 : b'.used = b.used) : b' = b := by
  cases b'; cases b; simp_all

/-- With unique balance-row ids, every row changed by `updateUsed` through
a looked-up row `bal` carries `bal`'s year. -/
theorem changed_year (s : State) (bid : String) (v : ℤ)
    {bal : LeaveBalance}
    (hnodup : (s.balances.map (fun b => b.id)).Nodup)
    (hbalmem : bal ∈ s.balances) (hbid : bal.id = bid) :
    ∀ b' ∈ (updateUsed s bid v).balances, b' ∉ s.balances →
      b'.year = bal.year := by
  intro b' hb' hnm
  obtain ⟨b, hbmem, h1, h2, h3, h4, h5, h6, hused⟩ := mem_updateUsed hb'
  rcases hused with h | ⟨_, hid⟩
  · exact absurd
      ((LeaveBalance.eq_of_fields h1 h2 h3 h4 h5 h6 h) ▸ hbmem) hnm
  · have hbb : b = bal :=
      List.inj_on_of_nodup_map hnodup hbmem hbalmem (by rw [hid, hbid])
    rw [h4, hbb]

/-- C10: the final-approval increment (and the cancellation decrement) hits
a balance row of the CURRENT wall-clock year, whereas deleteLeaveRequest
and approveDeleteLeaveRequest revert `used` on a row of the request's
START-DATE year; hence for a request whose start date lies in a different
calendar year than the acting moment, approval and a later
deletion-approval mutate different balance rows.  (Balance-row ids are
assumed unique — they are a primary key.) -/
theorem c10_theorem :
    (∀ (env : Env) (s : State) (id : String) (comments : Option String)
        (approverId : String) (now : Day),
      (s.balances.map (fun b => b.id)).Nodup →
      ∀ b' ∈ (updateLeaveRequestStatus env s id Status.approved comments
          approverId now).2.balances,
        b' ∉ s.balances → b'.year = now.year) ∧
    (∀ (env : Env) (s : State) (id userId : String) (now : Day),
      (s.balances.map (fun b => b.id)).Nodup →
      ∀ b' ∈ (cancelLeaveRequest env s id userId now).2.balances,
        b' ∉ s.balances → b'.year = now.year) ∧
    (∀ (env : Env) (s : State) (id : String) (comments : Option String)
        (approverId : String) (req : LeaveRequest),
      (s.balances.map (fun b => b.id)).Nodup →
      findRequest s id = some req →
      ∀ b' ∈ (approveDeleteLeaveRequest env s id comments
          approverId).2.balances,
        b' ∉ s.balances → b'.year = req.startDate.year) ∧
    (∀ (env : Env) (s : State) (id userId userRole : String) (now : Day)
        (req : LeaveRequest),
      (s.balances.map (fun b => b.id)).Nodup →
      findRequest s id = some req →
      ∀ b' ∈ (deleteLeaveRequest env s id userId userRole now).2.balances,
        b' ∉ s.balances → b'.year = req.startDate.year) ∧
    (∀ (env env2 : Env) (s s2 : State) (id : String)
        (comments comments2 : Option String) (approverId approverId2 :
        String) (now : Day) (req2 : LeaveRequest),
      (s.balances.map (fun b => b.id)).Nodup →
      (s2.balances.map (fun b => b.id)).Nodup →
      findRequest s2 id = some req2 →
      req2.startDate.year ≠ now.year →
      ∀ b1 ∈ (updateLeaveRequestStatus env s id Status.approved comments
          approverId now).2.balances,
      ∀ b2 ∈ (approveDeleteLeaveRequest env2 s2 id comments2
          approverId2).2.balances,
        b1 ∉ s.balances → b2 ∉ s2.balances → b1.year ≠ b2.year) := by
  have part1 : ∀ (env : Env) (s : State) (id : String)
      (comments : Option String) (approverId : String) (now : Day),
      (s.balances.map (fun b => b.id)).Nodup →
      ∀ b' ∈ (updateLeaveRequestStatus env s id Status.approved comments
          approverId now).2.balances,
        b' ∉ s.balances → b'.year = now.year := by
    intro env s id comments approverId now hnodup b' hb' hnm
    rcases updateStatus_balances env s id Status.approved comments
      approverId now with hEq | ⟨_, req, bal, _, hbal, hEq⟩
    · rw [hEq] at hb'; exact absurd hb' hnm
    · rw [hEq] at hb'
      obtain ⟨hmem, _, _, hyr⟩ := findBalance_spec hbal
      rw [changed_year s bal.id _ hnodup hmem rfl b' hb' hnm, hyr]
  have part3 : ∀ (env : Env) (s : State) (id : String)
      (comments : Option String) (approverId : String) (req : LeaveRequest),
      (s.balances.map (fun b => b.id)).Nodup →
      findRequest s id = some req →
      ∀ b' ∈ (approveDeleteLeaveRequest env s id comments
          approverId).2.balances,
        b' ∉ s.balances → b'.year = req.startDate.year := by
    intro env s id comments approverId req hnodup hfind b' hb' hnm
    rcases approveDel_balances env s id comments approverId with hEq |
      ⟨req', bal, hfind', _, hbal, hEq⟩
    · rw [hEq] at hb'; exact absurd hb' hnm
    · rw [hfind] at hfind'
      cases hfind'
      rw [hEq] at hb'
      obtain ⟨hmem, _, _, hyr⟩ := findBalance_spec hbal
      rw [changed_year s bal.id _ hnodup hmem rfl b' hb' hnm, hyr]
  refine ⟨part1, ?_, part3, ?_, ?_⟩
  · intro env s id userId now hnodup b' hb' hnm
    rcases cancel_balances env s id userId now with hEq |
      ⟨req, bal, _, _, hbal, hEq⟩
    · rw [hEq] at hb'; exact absurd hb' hnm
    · rw [hEq] at hb'
      obtain ⟨hmem, _, _, hyr⟩ := findBalance_spec hbal
      rw [changed_year s bal.id _ hnodup hmem rfl b' hb' hnm, hyr]
  · intro env s id userId userRole now req hnodup hfind b' hb' hnm
    rcases del_balances env s id userId userRole now with hEq |
      ⟨req', bal, hfind', _, hbal, hEq⟩
    · rw [hEq] at hb'; exact absurd hb' hnm
    · rw [hfind] at hfind'
      cases hfind'
      rw [hEq] at hb'
      obtain ⟨hmem, _, _, hyr⟩ := findBalance_spec hbal
      rw [changed_year s bal.id _ hnodup hmem rfl b' hb' hnm, hyr]
  · intro env env2 s s2 id comments comments2 approverId approverId2 now
      req2 hnodup hnodup2 hfind hyne b1 hb1 b2 hb2 hnm1 hnm2
    have hy1 := part1 env s id comments approverId now hnodup b1 hb1 hnm1
    have hy2 := part3 env2 s2 id comments2 approverId2 req2 hnodup2 hfind
      b2 hb2 hnm2
    rw [hy1, hy2]
    exact fun h => hyne (h ▸ rfl)

/-- Fixture leave dates in the PREVIOUS year (2025). -/
def fxDY1 : Day := ⟨2025, 300⟩

/-- Fixture leave dates in the PREVIOUS year (2025). -/
def fxDY2 : Day := ⟨2025, 301⟩

/-- Fixture pending request whose start date lies in 2025 while the acting
moment is in 2026. -/
def fxReqY : LeaveRequest :=
  ⟨"Y", "U1", "LT", fxDY1, fxDY2, ReqType.fullDay, 2, "r", Status.pending,
    none, none, none, some fxMdA⟩

/-- Fixture store for approving fxReqY (balance row of year 2026). -/
def fxSY : State := ⟨[fxReqY], [fxB1], [fxWf1], [fxU1, fxA1], [fxLt]⟩

/-- Fixture pending-deletion variant of fxReqY (original status approved). -/
def fxReqY2 : LeaveRequest :=
  ⟨"Y", "U1", "LT", fxDY1, fxDY2, ReqType.fullDay, 2, "r",
    Status.pendingDeletion, none, none, none, some fxMdD⟩

/-- Fixture 2025 balance row carrying the 2 used half-days of fxReqY2. -/
def fxB0 : LeaveBalance := ⟨"B0", "U1", "LT", 2025, 20, 2, 0⟩

/-- Fixture store for deletion-approving fxReqY2 (balance row of 2025). -/
def fxSY2 : State := ⟨[fxReqY2], [fxB0], [fxWf1], [fxU1, fxHr], [fxLt]⟩

/-- The 2026 balance row as mutated by the final approval of fxReqY. -/
def fxBalAfterApprove : LeaveBalance := ⟨"B1", "U1", "LT", 2026, 20, 2, 0⟩

/-- The 2025 balance row as mutated by the deletion approval of fxReqY2. -/
def fxBalAfterDelete : LeaveBalance := ⟨"B0", "U1", "LT", 2025, 20, 0, 0⟩

/-- C10 witness: for the year-crossing fixture request, the row changed by
the approval (year 2026, the acting year) and the row changed by the
deletion approval (year 2025, the start-date year) are rows of different
years. -/
theorem c10_witness :
    fxBalAfterApprove.year ≠ fxBalAfterDelete.year :=
  c10_theorem.2.2.2.2 fxEnv fxEnv fxSY fxSY2 "Y" none none "A1" "H1" fxNow
    fxReqY2 (by decide) (by decide) (by decide) (by decide)
    fxBalAfterApprove (by decide) fxBalAfterDelete (by decide) (by decide)
    (by decide)

/-! ### Workflow catalog invariant (C7). -/

/-- Range intersection of two workflows, exactly the repository query
`minDays <= other.maxDays AND maxDays >= other.minDays`. -/
def Intersects (a b : Workflow) : Prop :=
  a.minDays ≤ b.maxDays ∧ b.minDays ≤ a.maxDays

/-- The catalog invariant: pairwise distinct ids and non-intersecting
ranges. -/
def WfInv (ws : List Workflow) : Prop :=
  ws.Pairwise (fun a b => a.id ≠ b.id ∧ ¬ Intersects a b)

/-- The workflow tables reachable through createApprovalWorkflow and
updateApprovalWorkflow from the empty table.  The id-freshness hypothesis
of `create` models the database generating a fresh uuid primary key. -/
inductive WfReach : List Workflow → Prop where
  | nil : WfReach []
  | create {ws : List Workflow} {wf : Workflow} {ws' : List Workflow} :
      WfReach ws → wf.id ∉ ws.map (fun w => w.id) →
      createApprovalWorkflow ws wf = Except.ok ws' → WfReach ws'
  | update {ws : List Workflow} {wid : String} {p : WfPatch}
      {ws' : List Workflow} :
      WfReach ws → updateApprovalWorkflow ws wid p = Except.ok ws' →
      WfReach ws'

/-- Replacing the (unique) row with a given id preserves a pairwise
relation, provided the replacement is related to every other row. -/
theorem pairwise_map_replace_wf {R : Workflow → Workflow → Prop} :
    ∀ (l : List Workflow) (wid : String) (m : Workflow),
      l.Pairwise R → (∀ a b, R a b → a.id ≠ b.id) →
      (∀ a ∈ l, a.id ≠ wid → R a m ∧ R m a) →
      (l.map (fun w => if w.id = wid then m else w)).Pairwise R
  | [], _, _, _, _, _ => List.Pairwise.nil
  | x :: xs, wid, m, hR, hids, hrepl => by
    rcases List.pairwise_cons.mp hR with ⟨hhead, htail⟩
    simp only [List.map_cons]
    by_cases hx : x.id = wid
    · rw [if_pos hx]
      have hxs : xs.map (fun w => if w.id = wid then m else w) = xs := by
        have hstep : xs.map (fun w => if w.id = wid then m else w) =
            xs.map id := by
          refine List.map_congr_left ?_
          intro a ha
          have hne : a.id ≠ wid := by
            intro hh
            exact (hids x a (hhead a ha)) (by rw [hx, hh])
          simp [hne]
        rw [hstep, List.map_id]
      rw [hxs]
      refine List.Pairwise.cons ?_ htail
      intro b hb
      have hbw : b.id ≠ wid := by
        intro hh
        exact (hids x b (hhead b hb)) (by rw [hx, hh])
      exact (hrepl b (List.mem_cons_of_mem x hb) hbw).2
    · rw [if_neg hx]
      refine List.Pairwise.cons ?_ ?_
      · intro b' hb'
        obtain ⟨b, hb, rfl⟩ := List.mem_map.mp hb'
        by_cases hbw : b.id = wid
        · rw [if_pos hbw]
          exact (hrepl x (List.mem_cons_self x xs) hx).1
        · rw [if_neg hbw]
          exact hhead b hb
      · exact pairwise_map_replace_wf xs wid m htail hids
          (fun a ha haw => hrepl a (List.mem_cons_of_mem x ha) haw)

/-- createApprovalWorkflow preserves the catalog invariant (given a fresh
primary key). -/
theorem wfInv_create {ws : List Workflow} {wf : Workflow}
    {ws' : List Workflow} (hInv : WfInv ws)
    (hfresh : wf.id ∉ ws.map (fun w => w.id))
    (hok : createApprovalWorkflow ws wf = Except.ok ws') : WfInv ws' := by
  have hsplit : (ws.any (fun w =>
      decide (w.minDays ≤ wf.maxDays) &&
        decide (wf.minDays ≤ w.maxDays))) = false ∧ ws' = ws ++ [wf] := by
    by_cases h1 : ws.any (fun w => decide (w.name = wf.name)) = true
    · simp [createApprovalWorkflow, h1] at hok
    · by_cases h2 : ws.any (fun w =>
          decide (w.minDays ≤ wf.maxDays) &&
            decide (wf.minDays ≤ w.maxDays)) = true
      · simp [createApprovalWorkflow, h1, h2] at hok
      · simp [createApprovalWorkflow, h1, h2] at hok
        exact ⟨by simpa using h2, hok.symm⟩
  obtain ⟨hov, rfl⟩ := hsplit
  rw [WfInv, List.pairwise_append]
  refine ⟨hInv, List.pairwise_singleton _ _, ?_⟩
  intro a ha b hb
  rcases List.mem_singleton.mp hb with rfl
  constructor
  · intro hcontra
    exact hfresh (hcontra ▸ List.mem_map_of_mem (fun w => w.id) ha)
  · intro hcontra
    have hpa : (decide (a.minDays ≤ b.maxDays) &&
        decide (b.minDays ≤ a.maxDays)) = true := by
      simp [hcontra.1, hcontra.2]
    have hany : (ws.any fun w => decide (w.minDays ≤ b.maxDays) &&
        decide (b.minDays ≤ w.maxDays)) = true :=
      List.any_eq_true.mpr ⟨a, ha, hpa⟩
    rw [hany] at hov
    cases hov

/-- updateApprovalWorkflow preserves the catalog invariant. -/
theorem wfInv_update {ws : List Workflow} {wid : String} {p : WfPatch}
    {ws' : List Workflow} (hInv : WfInv ws)
    (hok : updateApprovalWorkflow ws wid p = Except.ok ws') : WfInv ws' := by
  have hsym : Symmetric
      (fun x y : Workflow => x.id ≠ y.id ∧ ¬ Intersects x y) := by
    intro x y h
    exact ⟨fun hh => h.1 hh.symm, fun hi => h.2 ⟨hi.2, hi.1⟩⟩
  simp only [updateApprovalWorkflow] at hok
  split at hok
  · cases hok
  case _ wf0 hfind =>
    have hwid : wf0.id = wid := by
      have := List.find?_some hfind
      simpa using this
    have hmem0 : wf0 ∈ ws := List.mem_of_find?_eq_some hfind
    split at hok
    · cases hok
    case _ hname =>
      split at hok
      · cases hok
      case _ hover =>
        injection hok with hok
        subst hok
        have hoverb : (((match p.minDays with
            | some m => decide (m ≠ wf0.minDays)
            | none => false) ||
            (match p.maxDays with
            | some m => decide (m ≠ wf0.maxDays)
            | none => false)) &&
            ws.any (fun w =>
              !decide (w.id = wid) &&
                decide (w.minDays ≤ p.maxDays.getD wf0.maxDays) &&
                decide (p.minDays.getD wf0.minDays ≤ w.maxDays))) =
            false := by
          simp only [Bool.not_eq_true] at hover
          exact hover
        refine pairwise_map_replace_wf ws wid (mergePatch wf0 p) hInv
          (fun a b h => h.1) ?_
        intro a ha haw
        have hane : a ≠ wf0 := fun hh => haw (hh ▸ hwid)
        have hR0 := (hInv.forall hsym) ha hmem0 hane
        have hmid : (mergePatch wf0 p).id = wid := hwid
        have hint : ¬ Intersects a (mergePatch wf0 p) := by
          rcases Bool.and_eq_false_iff.mp hoverb with hch | hany
          · rcases Bool.or_eq_false_iff.mp hch with ⟨h1, h2⟩
            have hmin : (mergePatch wf0 p).minDays = wf0.minDays := by
              cases hpm : p.minDays with
              | none => simp [mergePatch, hpm]
              | some m =>
                rw [hpm] at h1
                simp only [decide_eq_false_iff_not, not_not] at h1
                simp [mergePatch, hpm, h1]
            have hmax : (mergePatch wf0 p).maxDays = wf0.maxDays := by
              cases hpm : p.maxDays with
              | none => simp [mergePatch, hpm]
              | some m =>
                rw [hpm] at h2
                simp only [decide_eq_false_iff_not, not_not] at h2
                simp [mergePatch, hpm, h2]
            rw [Intersects, hmin, hmax]
            exact hR0.2
          · intro hcontra
            have hpa : (!decide (a.id = wid) &&
                decide (a.minDays ≤ p.maxDays.getD wf0.maxDays) &&
                decide (p.minDays.getD wf0.minDays ≤ a.maxDays)) =
                true := by
              simp only [Bool.and_eq_true, Bool.not_eq_true',
                decide_eq_false_iff_not, decide_eq_true_eq]
              exact ⟨⟨haw, hcontra.1⟩, hcontra.2⟩
            exact (List.any_eq_false.mp hany a ha) hpa
        refine ⟨⟨?_, hint⟩, ?_, fun hi => hint ⟨hi.2, hi.1⟩⟩
        · intro hh
          exact haw (hh.trans hmid)
        · intro hh
          exact haw ((hh.symm).trans hmid)

/-- The catalog invariant holds in every reachable workflow table. -/
theorem wfReach_inv {ws : List Workflow} (h : WfReach ws) : WfInv ws := by
  induction h with
  | nil => exact List.Pairwise.nil
  | create _ hfresh hok ih => exact wfInv_create ih hfresh hok
  | update _ hok ih => exact wfInv_update ih hok

/-- C7: in every workflow table reachable through createApprovalWorkflow
and updateApprovalWorkflow, no two distinct (in particular simultaneously
active) workflows have intersecting `[minDays, maxDays]` ranges — creation
rejects a range intersecting ANY existing row, and update re-validates a
changed range against all rows except the workflow itself. -/
theorem c7_theorem {ws : List Workflow} (h : WfReach ws) :
    ∀ w1 ∈ ws, ∀ w2 ∈ ws, w1.id ≠ w2.id →
      w1.isActive = true → w2.isActive = true →
      ¬ Intersects w1 w2 := by
  have hsym : Symmetric
      (fun x y : Workflow => x.id ≠ y.id ∧ ¬ Intersects x y) := by
    intro x y hxy
    exact ⟨fun hh => hxy.1 hh.symm, fun hi => hxy.2 ⟨hi.2, hi.1⟩⟩
  intro w1 h1 w2 h2 hne _ _
  have hinv := wfReach_inv h
  have hwne : w1 ≠ w2 := fun hh => hne (hh ▸ rfl)
  exact ((hinv.forall hsym) h1 h2 hwne).2

/-- A second fixture workflow whose range does not intersect fxWf1's. -/
def fxWfB : Workflow :=
  ⟨"WB", "wb", 5, 8, [⟨1, ["r1"], [], false, true⟩], true⟩

/-- The fixture table [fxWf1, fxWfB] is reachable by two creations. -/
theorem fxWfReach : WfReach [fxWf1, fxWfB] :=
  @WfReach.create [fxWf1] fxWfB [fxWf1, fxWfB]
    (@WfReach.create [] fxWf1 [fxWf1] WfReach.nil (by decide) rfl)
    (by decide) rfl

/-- C7 witness: the invariant theorem applied to the two-creation fixture
table. -/
theorem c7_witness : ¬ Intersects fxWf1 fxWfB :=
  c7_theorem fxWfReach fxWf1 (by decide) fxWfB (by decide) (by decide)
    (by decide) (by decide)

end LMS
